import Mathlib

/-!
Verification development for the course-schedule optimizer repository.

The repository contains two variants of the PSO engine:
* `src/pso/optimizer.rs` + `src/pso/particle.rs` — an `f64` engine with
  round-robin room allocation, a broadcast `OptimizationStatus` channel and a
  final "finished" status event (namespace `Pso` below);
* `src/algorithms/optimizer.rs` + `src/algorithms/models.rs` — an `f32` engine
  without room allocation, with a 4-section daily-capacity rule, an early-stop
  threshold, and an `OptimizationProgress` channel (namespace `Alg` below).

Modelling conventions:
* `f64`/`f32` values are modelled as rationals (`ℚ`); IEEE NaN and rounding
  are not modelled (all inputs considered have totally ordered coordinates).
  Fitness values, which the code initializes to `f64::INFINITY`, are modelled
  by `Fit` (a rational or `+∞`).
* `u64`/`u32`/`usize` fields are modelled as `ℕ`; the domain values involved
  (credit hours, minutes-of-day, identifiers, room counts) are far below any
  machine-integer bound, so wrap-around is not modelled.  The one machine
  arithmetic operation that is partial in every build profile — Rust's `%`
  with divisor `0`, which always panics — is modelled explicitly by `Option`.
* Rust `HashMap` grouping iterates in an unspecified order; it is modelled
  deterministically by first-insertion key order (`groupPairs`).  Every
  theorem below about grouped output is insensitive to group order.
* The body of `FitnessCalculator::calculate_fitness` is not present in the
  sources (only its callers are); it is abstracted as an oracle argument
  (`calcFit`), so theorems hold for every possible fitness function.
* Randomness (`rand::thread_rng`) is modelled by explicit oracle arguments.
-/

set_option maxRecDepth 4000

namespace ScheduleApp

/-- Fitness value (`f64`/`f32`): a finite rational or `+∞`
(`f64::INFINITY`, the initial personal/global best). NaN is not modelled. -/
inductive Fit where
  | val (q : ℚ)
  | inf
deriving DecidableEq, Repr, Inhabited

/-- Strict `<` on fitness values, with `inf` greater than every finite value. -/
def Fit.lt : Fit → Fit → Prop
  | .val a, .val b => a < b
  | .val _, .inf => True
  | .inf, _ => False

instance : ∀ a b : Fit, Decidable (Fit.lt a b)
  | .val a, .val b => inferInstanceAs (Decidable (a < b))
  | .val _, .inf => .isTrue trivial
  | .inf, .val _ => .isFalse id
  | .inf, .inf => .isFalse id

/-- Non-strict `≤` on fitness values. -/
def Fit.le : Fit → Fit → Prop
  | _, .inf => True
  | .val a, .val b => a ≤ b
  | .inf, .val _ => False

instance : ∀ a b : Fit, Decidable (Fit.le a b)
  | .val a, .val b => inferInstanceAs (Decidable (a ≤ b))
  | .val _, .inf => .isTrue trivial
  | .inf, .inf => .isTrue trivial
  | .inf, .val _ => .isFalse id


/-- `CourseRequest` (`src/models.rs` / `src/algorithms/models.rs`; the two
variants differ only in integer width, both modelled on `ℕ`). -/
structure CourseRequest where
  id_jadwal : ℕ
  id_matkul : ℕ
  id_dosen : ℕ
  id_waktu : ℕ
  id_kelas : ℕ
  semester : ℕ
  sks : ℕ
  prodi : ℕ
deriving DecidableEq, Repr, Inhabited

/-- `OptimizedCourse` (decoder output; both variants). -/
structure OptimizedCourse where
  id_jadwal : ℕ
  id_matkul : ℕ
  id_dosen : ℕ
  id_kelas : ℕ
  id_waktu : ℕ
  hari : ℕ
  jam_mulai : ℕ
  jam_akhir : ℕ
  ruangan : ℕ
  semester : ℕ
  sks : ℕ
  prodi : ℕ
deriving DecidableEq, Repr, Inhabited

/-- `ConflictInfo` (`src/models.rs`). -/
structure ConflictInfo where
  group_conflicts : List ((ℕ × ℕ × ℕ) × (ℕ × ℕ × ℕ))
  preference_conflicts : List ℕ
  conflicts_list : List String
  total_conflicts : ℕ
deriving DecidableEq, Repr

/-- `ConflictInfo::default()` (derived `Default`: all collections empty, count 0). -/
def ConflictInfo.default : ConflictInfo := ⟨[], [], [], 0⟩

/-! ### Generic list machinery: stable sorting and HashMap-style grouping -/

/-- Insert `x` after every element `y` with `le y x`.  Folding this over a list
(`isortBy`) is a stable insertion sort, modelling Rust's stable `sort_by`
(and `sort_unstable` for the total orders used here). -/
def insBy (le : α → α → Bool) (x : α) : List α → List α
  | [] => [x]
  | y :: ys => if le y x then y :: insBy le x ys else x :: y :: ys

/-- Stable insertion sort by `le`. -/
def isortBy (le : α → α → Bool) (l : List α) : List α :=
  l.foldl (fun acc x => insBy le x acc) []


/-- Adjacent-duplicate removal, modelling Rust's `Vec::dedup`
(applied after sorting, so it removes all duplicates). -/
def dedupAdj [DecidableEq α] : List α → List α
  | [] => []
  | [a] => [a]
  | a :: b :: rest =>
    if a = b then dedupAdj (b :: rest) else a :: dedupAdj (b :: rest)

/-- Append `k` if it is not already present (helper for `firstKeys`). -/
def pushNew [DecidableEq κ] (acc : List κ) (k : κ) : List κ :=
  if k ∈ acc then acc else acc ++ [k]

/-- The keys of `l` under `key`, in first-occurrence order. -/
def firstKeys [DecidableEq κ] (key : α → κ) (l : List α) : List κ :=
  l.foldl (fun acc x => pushNew acc (key x)) []

/-- Deterministic stand-in for iterating a Rust `HashMap` built by pushing
each element into the entry of its key: keys in first-insertion order, each
paired with the sublist of its elements in insertion order.  The real
`HashMap` iterates in an unspecified order; all theorems below about grouped
output are order-insensitive. -/
def groupPairs [DecidableEq κ] (key : α → κ) (l : List α) : List (κ × List α) :=
  (firstKeys key l).map fun k => (k, l.filter fun x => key x = k)


/-! ### Shared decoder pieces (day and time assignment loops)

The day-assignment loop and (up to a syntactic difference, proved equivalent
below) the time-assignment loop are identical in the two sources, so they are
modelled once.  `dayGo` is parametrised by the daily capacity `maxSks`: the
f64 decoder hard-codes `6`, the f32 decoder passes `3` for groups of exactly
4 sections and `6` otherwise. -/

/-- The `while current_day < 5` scan: the first day `d` with `cd ≤ d < 5`
whose accumulated load still fits `sks` under `maxSks`, if any. -/
def findDay (loads : ℕ → ℕ) (sks maxSks : ℕ) (cd : ℕ) : Option ℕ :=
  if cd < 5 then
    if loads cd + sks ≤ maxSks then some cd else findDay loads sks maxSks (cd + 1)
  else none
termination_by 5 - cd
decreasing_by omega

/-- Add `sks` to day `d` in the `sks_per_day` table. -/
def bump (loads : ℕ → ℕ) (d sks : ℕ) : ℕ → ℕ :=
  fun d' => if d' = d then loads d + sks else loads d'

/-- Day-assignment loop over a group already sorted by day-order coordinate:
carries the per-day load table and the (never decreasing) current-day pointer;
a section that fits no day before day 5 is force-assigned day 5 (its load is
not recorded, exactly as in the source where the `while` loop exits with
`hari == 0`).  Each output is keyed by
`(prodi, semester, id_kelas, id_waktu, hari)` recomputed from the section. -/
def dayGo (maxSks : ℕ) (loads : ℕ → ℕ) (cd : ℕ) :
    List (ℚ × ℚ × OptimizedCourse) → List ((ℕ × ℕ × ℕ × ℕ × ℕ) × ℚ × OptimizedCourse)
  | [] => []
  | (_, u, c) :: rest =>
    match findDay loads c.sks maxSks cd with
    | some d =>
      let c' := {c with hari := d + 1}
      ((c'.prodi, c'.semester, c'.id_kelas, c'.id_waktu, c'.hari), u, c') ::
        dayGo maxSks (bump loads d c.sks) d rest
    | none =>
      let c' := {c with hari := 5}
      ((c'.prodi, c'.semester, c'.id_kelas, c'.id_waktu, c'.hari), u, c') ::
        dayGo maxSks loads 5 rest

/-- Session window per `id_waktu`: category 1 and any unrecognized category
get minutes `[480, 720)`, category 2 gets `[1080, 1320)`. -/
def sessionWindow (id_waktu : ℕ) : ℕ × ℕ :=
  match id_waktu with
  | 1 => (480, 720)
  | 2 => (1080, 1320)
  | _ => (480, 720)

/-- Time-assignment walk of the f64 decoder (`src/pso/optimizer.rs`): place
consecutive slots from the cursor `ct`; if the next slot would pass the window
end, restart at the window start. -/
def timeGoF64 (start_ max_ : ℕ) (ct : ℕ) :
    List (ℚ × OptimizedCourse) → List OptimizedCourse
  | [] => []
  | (_, c) :: rest =>
    let duration := c.sks * 40
    if ct + duration ≤ max_ then
      {c with jam_mulai := ct, jam_akhir := ct + duration} ::
        timeGoF64 start_ max_ (ct + duration) rest
    else
      {c with jam_mulai := start_, jam_akhir := start_ + duration} ::
        timeGoF64 start_ max_ (start_ + duration) rest

/-- Time-assignment walk of the f32 decoder (`src/algorithms/optimizer.rs`):
same policy, written as in that source (reset the cursor first, then assign). -/
def timeGoF32 (start_ end_ : ℕ) (ct : ℕ) :
    List (ℚ × OptimizedCourse) → List OptimizedCourse
  | [] => []
  | (_, c) :: rest =>
    let duration := c.sks * 40
    let ct' := if ct + duration > end_ then start_ else ct
    {c with jam_mulai := ct', jam_akhir := ct' + duration} ::
      timeGoF32 start_ end_ (ct' + duration) rest


/-- Comparator for day-order coordinates (first component). -/
def dayLe (a b : ℚ × ℚ × OptimizedCourse) : Bool := decide (a.1 ≤ b.1)

/-- Comparator for within-day-order coordinates (first component). -/
def timeLe (a b : ℚ × OptimizedCourse) : Bool := decide (a.1 ≤ b.1)

namespace Pso

/-! ### The f64 decoder, `PSO::position_to_schedule` in `src/pso/optimizer.rs` -/

/-- Lexicographic `≤` on `(prodi, semester, id_kelas)` triples (Rust tuple order). -/
def tripleLeB (a b : ℕ × ℕ × ℕ) : Bool :=
  decide (a.1 < b.1 ∨ (a.1 = b.1 ∧ (a.2.1 < b.2.1 ∨ (a.2.1 = b.2.1 ∧ a.2.2 ≤ b.2.2))))

/-- The distinct `(prodi, semester, id_kelas)` group keys of the course list,
sorted lexicographically and deduplicated (`sort_unstable` + `dedup`). -/
def sortedGroups (courses : List CourseRequest) : List (ℕ × ℕ × ℕ) :=
  dedupAdj (isortBy tripleLeB (courses.map fun c => (c.prodi, c.semester, c.id_kelas)))

/-- Round-robin room allocation: the k-th group receives the current room and
the counter advances to `(room % sum_ruangan) + 1`.  `none` models the Rust
panic of `current_room % sum_ruangan` when `sum_ruangan = 0` (remainder by
zero panics in every build profile). -/
def allocRooms (sum_ruangan : ℕ) :
    List (ℕ × ℕ × ℕ) → ℕ → Option (List ((ℕ × ℕ × ℕ) × ℕ))
  | [], _ => some []
  | g :: gs, r =>
    if sum_ruangan = 0 then none
    else (allocRooms sum_ruangan gs (r % sum_ruangan + 1)).map fun rest => (g, r) :: rest

/-- `room_allocation.get(&key).unwrap_or(&1)`. -/
def lookupRoom (alloc : List ((ℕ × ℕ × ℕ) × ℕ)) (k : ℕ × ℕ × ℕ) : ℕ :=
  ((alloc.find? fun e => e.1 == k).map fun e => e.2).getD 1

/-- The `OptimizedCourse` pushed in "Step 1" of the f64 decoder: identifiers
copied from the course, `hari`/`jam` zeroed, room looked up by group key. -/
def mkEntry (alloc : List ((ℕ × ℕ × ℕ) × ℕ)) (c : CourseRequest) : OptimizedCourse :=
  { id_jadwal := c.id_jadwal, id_matkul := c.id_matkul, id_dosen := c.id_dosen,
    id_kelas := c.id_kelas, id_waktu := c.id_waktu, hari := 0, jam_mulai := 0,
    jam_akhir := 0, ruangan := lookupRoom alloc (c.prodi, c.semester, c.id_kelas),
    semester := c.semester, sks := c.sks, prodi := c.prodi }

/-- "Step 1" of the f64 decoder: one entry per course index `i` with
`i * 2 + 1 < position.len()` (the loop `break`s at the first course whose pair
of coordinates is missing), carrying the group key, the two coordinates, and
the initialized `OptimizedCourse`. -/
def mkEntries (position : List ℚ) (courses : List CourseRequest)
    (alloc : List ((ℕ × ℕ × ℕ) × ℕ)) :
    List ((ℕ × ℕ × ℕ × ℕ) × ℚ × ℚ × OptimizedCourse) :=
  (List.range (min courses.length (position.length / 2))).map fun i =>
    let c := courses.getD i default
    ((c.prodi, c.semester, c.id_kelas, c.id_waktu),
     position.getD (i * 2) 0, position.getD (i * 2 + 1) 0, mkEntry alloc c)

/-- `PSO::position_to_schedule` (f64 engine): room pre-allocation, grouping by
`(prodi, semester, id_kelas, id_waktu)`, stable sort by day-order, greedy day
packing with daily capacity 6, regrouping by day, stable sort by within-day
order, slot assignment in the session window.  `none` models the
remainder-by-zero panic of the room-allocation loop when `sum_ruangan = 0`
(and courses exist). -/
def position_to_schedule (position : List ℚ) (courses : List CourseRequest)
    (sum_ruangan : ℕ) : Option (List OptimizedCourse) :=
  match allocRooms sum_ruangan (sortedGroups courses) 1 with
  | none => none
  | some alloc =>
    let entries := mkEntries position courses alloc
    let groups := groupPairs (fun e => e.1) entries
    let withDay := groups.flatMap fun kg =>
      dayGo 6 (fun _ => 0) 0 (isortBy dayLe (kg.2.map fun e => e.2))
    let dayGroups := groupPairs (fun e => e.1) withDay
    some (dayGroups.flatMap fun kg =>
      let w := sessionWindow kg.1.2.2.2.1
      timeGoF64 w.1 w.2 w.1 (isortBy timeLe (kg.2.map fun e => e.2)))

end Pso

namespace Alg

/-! ### The f32 decoder, `PSO::position_to_schedule` in `src/algorithms/optimizer.rs` -/

/-- The `OptimizedCourse` built by the f32 decoder: identifiers copied,
`hari`/`jam` zeroed, `ruangan` always `0` (this variant allocates no rooms). -/
def mkEntry (c : CourseRequest) : OptimizedCourse :=
  { id_jadwal := c.id_jadwal, id_matkul := c.id_matkul, id_dosen := c.id_dosen,
    id_kelas := c.id_kelas, id_waktu := c.id_waktu, hari := 0, jam_mulai := 0,
    jam_akhir := 0, ruangan := 0, semester := c.semester, sks := c.sks,
    prodi := c.prodi }

/-- `PSO::position_to_schedule` (f32 engine): like the f64 decoder but with no
room allocation and with daily capacity 3 for groups of exactly 4 sections
(`let max_sks = if sorted.len() == 4 { 3 } else { 6 }`), 6 otherwise. -/
def position_to_schedule (position : List ℚ) (courses : List CourseRequest) :
    List OptimizedCourse :=
  let entries := (List.range (min courses.length (position.length / 2))).map fun i =>
    let c := courses.getD i default
    ((c.prodi, c.semester, c.id_kelas, c.id_waktu),
     position.getD (i * 2) 0, position.getD (i * 2 + 1) 0, mkEntry c)
  let groups := groupPairs (fun e => e.1) entries
  let withDay := groups.flatMap fun kg =>
    let sorted := isortBy dayLe (kg.2.map fun e => e.2)
    let maxSks := if sorted.length = 4 then 3 else 6
    dayGo maxSks (fun _ => 0) 0 sorted
  let dayGroups := groupPairs (fun e => e.1) withDay
  dayGroups.flatMap fun kg =>
    let w := sessionWindow kg.1.2.2.2.1
    timeGoF32 w.1 w.2 w.1 (isortBy timeLe (kg.2.map fun e => e.2))

end Alg

/-! ### Particles -/

/-- Rust `f64::clamp(lo, hi)`: when `lo > hi` the call panics in every build
profile (`assert!(min <= max)`), modelled as `none`; otherwise it clamps `x`
into `[lo, hi]`. -/
def clampQ (x lo hi : ℚ) : Option ℚ :=
  if lo ≤ hi then some (max lo (min hi x)) else none

/-- Sequence a list of possibly-panicking computations: a Rust loop whose
body may panic aborts at the first panic. -/
def seqOption : List (Option α) → Option (List α)
  | [] => some []
  | o :: os => do
    let v ← o
    let rest ← seqOption os
    return v :: rest

namespace Pso

/-- `Particle` (`src/pso/particle.rs`). -/
structure Particle where
  position : List ℚ
  velocity : List ℚ
  pbest_position : List ℚ
  pbest_fitness : Fit
deriving DecidableEq, Repr, Inhabited

/-- `Particle::new` (f64): Latin-hypercube position — one sample in each cell
`[i/d, (i+1)/d)` (`gen n lo hi` models the n-th `rng.gen_range(lo..hi)` call),
randomly shuffled (`shuffle`, an arbitrary permutation oracle); velocity
sampled in `[-1, 1)`; personal best starts at the initial position with
fitness `+∞`. -/
def Particle.new (dimension : ℕ) (gen : ℕ → ℚ → ℚ → ℚ)
    (shuffle : List ℚ → List ℚ) : Particle :=
  let step : ℚ := 1 / dimension
  let lhs_values := (List.range dimension).map fun i => gen i (i * step) ((i + 1) * step)
  let position := shuffle lhs_values
  { position := position,
    velocity := (List.range dimension).map fun i => gen (dimension + i) (-1) 1,
    pbest_position := position,
    pbest_fitness := .inf }

/-- `Particle::update_velocity` (f64): canonical PSO rule with clamping to
`[-velocity_clamp, velocity_clamp]`; `r1 i`, `r2 i` are the two uniform draws
for coordinate `i`.  The clamp panics (`none`) at the first coordinate when
`velocity_clamp < 0` (inverted clamp range). -/
def Particle.update_velocity (p : Particle) (gbest : List ℚ)
    (inertia_weight cognitive_weight social_weight velocity_clamp : ℚ)
    (r1 r2 : ℕ → ℚ) : Option Particle := do
  let velocity ← seqOption ((List.range p.velocity.length).map (fun i =>
      let cognitive := cognitive_weight * r1 i *
        (p.pbest_position.getD i 0 - p.position.getD i 0)
      let social := social_weight * r2 i * (gbest.getD i 0 - p.position.getD i 0)
      clampQ (inertia_weight * p.velocity.getD i 0 + cognitive + social)
        (-velocity_clamp) velocity_clamp))
  return { p with velocity := velocity }

/-- `Particle::update_position` (f64): add velocity, clamp to
`[0, position_clamp]`.  The clamp panics (`none`) at the first coordinate
when `position_clamp < 0` (inverted clamp range). -/
def Particle.update_position (p : Particle) (position_clamp : ℚ) : Option Particle := do
  let position ← seqOption ((List.range p.position.length).map (fun i =>
      clampQ (p.position.getD i 0 + p.velocity.getD i 0) 0 position_clamp))
  return { p with position := position }

end Pso

namespace Alg

/-- `Particle` (`src/algorithms/models.rs`): like the f64 particle but with a
current-fitness field. -/
structure Particle where
  position : List ℚ
  velocity : List ℚ
  pbest_position : List ℚ
  pbest_fitness : Fit
  fitness : Fit
deriving DecidableEq, Repr, Inhabited

/-- `Particle::new` (f32, `src/algorithms/optimizer.rs`): plain uniform
position in `[0, 1)` (no stratification), velocity in `[-0.1, 0.1)`,
`pbest_position` zero-initialized (not the initial position), both fitness
fields `+∞`. -/
def Particle.new (dimension : ℕ) (gen : ℕ → ℚ → ℚ → ℚ) : Particle :=
  { position := (List.range dimension).map fun i => gen i 0 1,
    velocity := (List.range dimension).map fun i => gen (dimension + i) (-1/10) (1/10),
    pbest_position := List.replicate dimension 0,
    pbest_fitness := .inf,
    fitness := .inf }

/-- `Particle::update_velocity` (f32): canonical PSO rule, no clamping
(the clamp line is commented out in the source). -/
def Particle.update_velocity (p : Particle) (gbest : List ℚ)
    (inertia_weight cognitive_weight social_weight : ℚ)
    (r1 r2 : ℕ → ℚ) : Particle :=
  { p with velocity := (List.range p.velocity.length).map (fun i =>
      let cognitive := cognitive_weight * r1 i *
        (p.pbest_position.getD i 0 - p.position.getD i 0)
      let social := social_weight * r2 i * (gbest.getD i 0 - p.position.getD i 0)
      inertia_weight * p.velocity.getD i 0 + cognitive + social) }

/-- `Particle::update_position` (f32): add velocity, no clamping. -/
def Particle.update_position (p : Particle) : Particle :=
  { p with position := (List.range p.position.length).map (fun i =>
      p.position.getD i 0 + p.velocity.getD i 0) }

/-- `Particle::update_personal_best` (f32): replace iff the current fitness is
strictly smaller (the source also guards against NaN, which `Fit` does not
contain). -/
def Particle.update_personal_best (p : Particle) : Particle :=
  if Fit.lt p.fitness p.pbest_fitness then
    { p with pbest_fitness := p.fitness, pbest_position := p.position }
  else p

end Alg

namespace Pso

/-! ### The f64 optimizer, `PSO::optimize` in `src/pso/optimizer.rs` -/

/-- The inputs of one f64 run.  `calcFit` abstracts the missing
`FitnessCalculator::calculate_fitness` body (fitness and conflict report of a
schedule); `rnd iter pi i` gives the pair `(r1, r2)` drawn for particle `pi`,
coordinate `i`, in iteration `iter`; `stop iter` is the value of
`*stop_rx.borrow()` read at the top of iteration `iter`.  `elapsed_time` is
wall-clock time and is not modelled. -/
structure Env where
  courses : List CourseRequest
  sum_ruangan : ℕ
  swarm_size : ℕ
  max_iterations : ℕ
  cognitive_weight : ℚ
  social_weight : ℚ
  inertia_weight : ℚ
  velocity_clamp : ℚ
  position_clamp : ℚ
  calcFit : List OptimizedCourse → Fit × ConflictInfo
  rnd : ℕ → ℕ → ℕ → ℚ × ℚ
  stop : ℕ → Bool

/-- `OptimizationStatus` (`src/models.rs`), minus the wall-clock
`elapsed_time` field. -/
structure OptimizationStatus where
  iteration : ℕ
  current_fitness : Fit
  best_fitness : Fit
  is_finished : Bool
  conflicts : ConflictInfo
deriving DecidableEq, Repr

/-- The swarm-owning state of the f64 `PSO` struct. -/
structure Swarm where
  particles : List Particle
  global_best_position : List ℚ
  global_best_fitness : Fit
deriving DecidableEq, Repr

/-- The per-particle body of the f64 iteration loop, in source order:
velocity update (against the global best carried into the iteration), position
update, decode, fitness evaluation, personal-best update. -/
def particleStep (env : Env) (gbest : List ℚ) (iter pi : ℕ) (p : Particle) :
    Option Particle := do
  let p ← p.update_velocity gbest env.inertia_weight env.cognitive_weight
    env.social_weight env.velocity_clamp
    (fun i => (env.rnd iter pi i).1) (fun i => (env.rnd iter pi i).2)
  let p ← p.update_position env.position_clamp
  let schedule ← position_to_schedule p.position env.courses env.sum_ruangan
  let fitness := (env.calcFit schedule).1
  return if Fit.lt fitness p.pbest_fitness then
    { p with pbest_fitness := fitness, pbest_position := p.position }
  else p

/-- `particleStep` applied to every particle (`pi` is the index of the first). -/
def stepParticles (env : Env) (gbest : List ℚ) (iter pi : ℕ) :
    List Particle → Option (List Particle)
  | [] => some []
  | p :: ps => do
    let p' ← particleStep env gbest iter pi p
    let rest ← stepParticles env gbest iter (pi + 1) ps
    return p' :: rest

/-- `iter().min_by(...)` over personal-best fitness: the first particle
achieving the minimum (replace only on strict improvement while folding). -/
def minByPbest : List Particle → Option Particle
  | [] => none
  | p :: ps => some (ps.foldl
      (fun best q => if Fit.lt q.pbest_fitness best.pbest_fitness then q else best) p)

/-- "Find new global best": replace the global best iff the best personal
best is strictly smaller. -/
def update_global_best (st : Swarm) : Swarm :=
  match minByPbest st.particles with
  | none => st
  | some best =>
    if Fit.lt best.pbest_fitness st.global_best_fitness then
      { st with global_best_fitness := best.pbest_fitness,
                global_best_position := best.pbest_position }
    else st

/-- One full iteration body of the f64 loop (between the stop-signal check and
the status publication): move every particle, evaluate it, update its personal
best, then refresh the global best. -/
def iterBody (env : Env) (iter : ℕ) (st : Swarm) : Option Swarm := do
  let ps ← stepParticles env st.global_best_position iter 0 st.particles
  return update_global_best { st with particles := ps }

/-- Evaluate a list of particles in place (decode, evaluate, update personal
best), without moving them — the first phase of the spec-claimed iteration
order (helper for `iterBodySpecOrder`). -/
def evalParticles (env : Env) : List Particle → Option (List Particle)
  | [] => some []
  | p :: ps => do
    let schedule ← position_to_schedule p.position env.courses env.sum_ruangan
    let fitness := (env.calcFit schedule).1
    let p' := if Fit.lt fitness p.pbest_fitness then
        { p with pbest_fitness := fitness, pbest_position := p.position }
      else p
    let rest ← evalParticles env ps
    return p' :: rest

/-- Velocity and position update applied to every particle against a fixed
global best (`pi` is the index of the first particle) — the move phase of the
spec-claimed iteration order (helper for `iterBodySpecOrder`). -/
def moveParticles (env : Env) (iter : ℕ) (gbest : List ℚ) :
    ℕ → List Particle → Option (List Particle)
  | _, [] => some []
  | pi, p :: ps => do
    let p' ← p.update_velocity gbest env.inertia_weight env.cognitive_weight
      env.social_weight env.velocity_clamp
      (fun i => (env.rnd iter pi i).1) (fun i => (env.rnd iter pi i).2)
    let p' ← p'.update_position env.position_clamp
    let rest ← moveParticles env iter gbest (pi + 1) ps
    return p' :: rest

/-- Modelled from the spec: the iteration order claimed in §4.4/§8 — first
decode and evaluate every particle at its current position and update its
personal best, then refresh the global best from all personal bests, and only
then update every particle's velocity and position using that just-refreshed
global best.  (Comparison definition for the refinement claim C4; the f64
source's actual order is `iterBody`.) -/
def iterBodySpecOrder (env : Env) (iter : ℕ) (st : Swarm) : Option Swarm := do
  let ps ← evalParticles env st.particles
  let st' := update_global_best { st with particles := ps }
  let moved ← moveParticles env iter st'.global_best_position 0 st'.particles
  return { st' with particles := moved }

/-- The status event published at the end of iteration `iter`:
decode the global best, recompute its conflicts, report the global best
fitness (both as current and best), not finished. -/
def statusEvent (env : Env) (iter : ℕ) (st : Swarm) : Option OptimizationStatus := do
  let schedule ← position_to_schedule st.global_best_position env.courses env.sum_ruangan
  let conflicts := (env.calcFit schedule).2
  return { iteration := iter, current_fitness := st.global_best_fitness,
           best_fitness := st.global_best_fitness, is_finished := false,
           conflicts := conflicts }

/-- The `for iteration in 0..max_iterations` loop of the f64 `optimize`:
`remaining` counts the iterations still to run.  Returns the list of published
status events and the final state. -/
def optimizeLoop (env : Env) (iter remaining : ℕ) (st : Swarm) :
    Option (List OptimizationStatus × Swarm) :=
  match remaining with
  | 0 => some ([], st)
  | r + 1 =>
    if env.stop iter then some ([], st)
    else do
      let st ← iterBody env iter st
      let ev ← statusEvent env iter st
      let rest ← optimizeLoop env (iter + 1) r st
      return (ev :: rest.1, rest.2)

/-- The per-particle body of `initialize_swarm` (f64): update the particle's
personal best and the swarm's global best from one evaluated fitness, and
append the particle to the processed list. -/
def init_step (p : Particle) (fitness : Fit) (st : Swarm) : Swarm :=
  let p' := if Fit.lt fitness p.pbest_fitness then
      { p with pbest_fitness := fitness, pbest_position := p.position }
    else p
  let st' := if Fit.lt fitness st.global_best_fitness then
      { st with global_best_fitness := fitness, global_best_position := p.position }
    else st
  { st' with particles := st'.particles ++ [p'] }

/-- `initialize_swarm` (f64): evaluate every particle once at its initial
position, updating personal and global bests. -/
def init_swarm (env : Env) : List Particle → Swarm → Option Swarm
  | [], st => some st
  | p :: ps, st => do
    let schedule ← position_to_schedule p.position env.courses env.sum_ruangan
    init_swarm env ps (init_step p (env.calcFit schedule).1 st)

/-- The initial swarm state built in `PSO::new` (f64): no evaluated
particles yet, zero global-best position of dimension `2 × courses.len()`,
global-best fitness `+∞`. -/
def initState (env : Env) : Swarm :=
  { particles := [],
    global_best_position := List.replicate (env.courses.length * 2) 0,
    global_best_fitness := .inf }

/-- The final status published after the f64 loop exits: `is_finished = true`,
default (empty) conflicts, the current global best fitness.  The iteration
index `max_iterations - 1` is truncated `ℕ` subtraction here; in Rust with
`max_iterations = 0` this `usize` subtraction underflows (panic under debug
overflow checks, wrap to `2^64 - 1` in release). -/
def finalStatus (env : Env) (st : Swarm) : OptimizationStatus :=
  { iteration := env.max_iterations - 1,
    current_fitness := st.global_best_fitness,
    best_fitness := st.global_best_fitness,
    is_finished := true, conflicts := ConflictInfo.default }

/-- `PSO::optimize` (f64): initialize the swarm, run the iteration loop, then
publish one final status with `is_finished = true` and default (empty)
conflicts, and return the global best position. -/
def optimize (env : Env) (init_particles : List Particle) :
    Option (List OptimizationStatus × List ℚ) := do
  let st1 ← init_swarm env init_particles (initState env)
  let r ← optimizeLoop env 0 env.max_iterations st1
  return (r.1 ++ [finalStatus env r.2], r.2.global_best_position)

/-- `PSO::evaluate_best_position`: decode the stored global best and return
its fitness and conflict report. -/
def evaluate_best_position (env : Env) (global_best_position : List ℚ) :
    Option (Fit × ConflictInfo) := do
  let schedule ← position_to_schedule global_best_position env.courses env.sum_ruangan
  return env.calcFit schedule

end Pso

namespace Alg

/-! ### The f32 optimizer, `PSO::optimize` in `src/algorithms/optimizer.rs` -/

/-- The inputs of one f32 run.  `calcFit` abstracts the missing
`FitnessCalculator::calculate_fitness` body (this variant returns only a
fitness); `run_info` is the `(current_run, total_runs)` pair after
`unwrap_or((0, 0))`; `abf` is the `all_best_fitness` accumulator passed in by
the caller. -/
structure Env where
  courses : List CourseRequest
  swarm_size : ℕ
  max_iterations : ℕ
  cognitive_weight : ℚ
  social_weight : ℚ
  inertia_weight : ℚ
  calcFit : List OptimizedCourse → Fit
  rnd : ℕ → ℕ → ℕ → ℚ × ℚ
  stop : ℕ → Bool
  run_info : ℕ × ℕ
  abf : List Fit

/-- `OptimizationProgress` (`src/algorithms/models.rs`), minus the wall-clock
`elapsed_time` field. -/
structure OptimizationProgress where
  iteration : ℕ
  best_fitness : Fit
  all_best_fitness : Option (List Fit)
  current_run : Option ℕ
  total_runs : Option ℕ
  is_finished : Bool
deriving DecidableEq, Repr

/-- The swarm-owning state of the f32 `PSO` struct. -/
structure Swarm where
  particles : List Particle
  global_best_position : List ℚ
  global_best_fitness : Fit
deriving DecidableEq, Repr

/-- `PSO::evaluate_position` (f32): decode, then score. -/
def evaluate_position (position : List ℚ) (courses : List CourseRequest)
    (calcFit : List OptimizedCourse → Fit) : Fit :=
  calcFit (position_to_schedule position courses)

/-- `PSO::evaluate_all_particles` (f32): evaluate every particle at its
current position and update its personal best. -/
def evaluate_all_particles (env : Env) (ps : List Particle) : List Particle :=
  ps.map fun p =>
    ({ p with fitness := evaluate_position p.position env.courses env.calcFit
     } : Particle).update_personal_best

/-- `PSO::update_global_best` (f32): scan all personal bests, replacing the
global best on strict improvement (the NaN guard is vacuous over `Fit`). -/
def update_global_best (st : Swarm) : Swarm :=
  let gb := st.particles.foldl
    (fun g p => if Fit.lt p.pbest_fitness g.2 then (p.pbest_position, p.pbest_fitness) else g)
    (st.global_best_position, st.global_best_fitness)
  { st with global_best_position := gb.1, global_best_fitness := gb.2 }

/-- `PSO::update_all_particles` (f32): velocity and position update for every
particle, using the current global best. -/
def update_all_particles (env : Env) (iter : ℕ) (gbest : List ℚ)
    (ps : List Particle) : List Particle :=
  ps.mapIdx fun pi p =>
    (p.update_velocity gbest env.inertia_weight env.cognitive_weight
      env.social_weight
      (fun i => (env.rnd iter pi i).1) (fun i => (env.rnd iter pi i).2)).update_position

/-- One full iteration body of the f32 loop, in source order: evaluate all
particles (updating personal bests), refresh the global best, then move every
particle using the refreshed global best. -/
def iterBody (env : Env) (iter : ℕ) (st : Swarm) : Swarm :=
  let st := { st with particles := evaluate_all_particles env st.particles }
  let st := update_global_best st
  { st with particles := update_all_particles env iter st.global_best_position st.particles }

/-- Modelled from the spec: the iteration order claimed in §4.4/§8 — decode
and evaluate every particle and update its personal best, then refresh the
global best from all personal bests, then update every particle's velocity
and position with the refreshed global best.  (Comparison definition for the
refinement claim C4.) -/
def iterBodySpecOrder (env : Env) (iter : ℕ) (st : Swarm) : Swarm :=
  let evaluated := { st with particles := evaluate_all_particles env st.particles }
  let refreshed := update_global_best evaluated
  { refreshed with particles :=
      update_all_particles env iter refreshed.global_best_position refreshed.particles }

/-- `PSO::progress` (f32): the event published at the end of an iteration. -/
def progressEvent (env : Env) (iteration : ℕ) (st : Swarm) (is_finished : Bool) :
    OptimizationProgress :=
  { iteration := iteration, best_fitness := st.global_best_fitness,
    all_best_fitness := some env.abf, current_run := some env.run_info.1,
    total_runs := some env.run_info.2, is_finished := is_finished }

/-- The `for iteration in 0..max_iterations` loop of the f32 `optimize`:
stop-signal check, iteration body, early-stop check (`break` before any event
when the global best drops below `0.001`), then a progress event with
`iteration + 1` and `is_finished = false`.  No event is published on any of
the `break` paths. -/
def optimizeLoop (env : Env) (iter remaining : ℕ) (st : Swarm) :
    List OptimizationProgress × Swarm :=
  match remaining with
  | 0 => ([], st)
  | r + 1 =>
    if env.stop iter then ([], st)
    else
      let st := iterBody env iter st
      if Fit.lt st.global_best_fitness (.val (1 / 1000)) then ([], st)
      else
        let ev := progressEvent env (iter + 1) st false
        let rest := optimizeLoop env (iter + 1) r st
        (ev :: rest.1, rest.2)

/-- `PSO::optimize` (f32): reset state (global best `+∞`, zero position of
dimension `2 × courses.len()`), install the freshly created particles
(`initialize_swarm` creates them without evaluating), run the loop, push the
final global best fitness onto `all_best_fitness`, and return.  No finished
event is ever published (`progress` is only called inside the loop with
`is_finished = false`). -/
def optimize (env : Env) (init_particles : List Particle) :
    List OptimizationProgress × List Fit × List ℚ × Fit :=
  let dimension := env.courses.length * 2
  let st0 : Swarm := { particles := init_particles,
                       global_best_position := List.replicate dimension 0,
                       global_best_fitness := .inf }
  let r := optimizeLoop env 0 env.max_iterations st0
  (r.1, env.abf ++ [r.2.global_best_fitness], r.2.global_best_position,
   r.2.global_best_fitness)

end Alg

/-! ### Well-formedness of a scheduled section (claim C8) -/

/-- A scheduled section is well-formed when its day lies in `1..=5`, its end
time is exactly `sks × 40` minutes after its start, its start is no earlier
than its session window's start, and it ends within the window unless the
slot cursor was wrapped back to the window start. -/
def wellFormedSection (c : OptimizedCourse) : Prop :=
  1 ≤ c.hari ∧ c.hari ≤ 5 ∧
  c.jam_akhir = c.jam_mulai + c.sks * 40 ∧
  (sessionWindow c.id_waktu).1 ≤ c.jam_mulai ∧
  (c.jam_akhir ≤ (sessionWindow c.id_waktu).2 ∨
    c.jam_mulai = (sessionWindow c.id_waktu).1)

/-! ### Concrete inputs used by witnesses and counterexamples -/

/-- A single course section: 3 credit hours, morning category, group (1,1,1). -/
def wCourse : CourseRequest := ⟨1, 1, 1, 1, 1, 1, 3, 1⟩

/-- A concrete f64 run environment: one course, one room, zero iterations,
inert velocity parameters, a fitness oracle that always reports fitness 5 and
7 conflicts, no stop signal. -/
def wEnvF64 : Pso.Env :=
  { courses := [wCourse], sum_ruangan := 1, swarm_size := 1, max_iterations := 0,
    cognitive_weight := 0, social_weight := 0, inertia_weight := 1,
    velocity_clamp := 1, position_clamp := 1,
    calcFit := (fun _ => (.val 5, ⟨[], [], [], 7⟩)),
    rnd := (fun _ _ _ => (0, 0)), stop := (fun _ => false) }

/-- A concrete f64 particle of dimension 2. -/
def wParticle : Pso.Particle := ⟨[1/2, 1/2], [0, 0], [1/2, 1/2], .inf⟩

/-- The final status published by the `wEnvF64` run. -/
def wFinal : Pso.OptimizationStatus := ⟨0, .val 5, .val 5, true, ConflictInfo.default⟩

/-- The schedule decoded from position `[0, 0]` for `[wCourse]` with one room. -/
def wSchedule : List OptimizedCourse := [⟨1, 1, 1, 1, 1, 1, 480, 600, 1, 1, 3, 1⟩]

/-- The four-section scenario of claim C3: one (program, semester, room-class,
session-category) group, `sks = 3` each, distinguished by `id_jadwal`
(10, 11, 12, 13) and `id_matkul`. -/
def c3Courses : List CourseRequest :=
  [⟨10, 1, 1, 1, 1, 1, 3, 1⟩, ⟨11, 2, 1, 1, 1, 1, 3, 1⟩,
   ⟨12, 3, 1, 1, 1, 1, 3, 1⟩, ⟨13, 4, 1, 1, 1, 1, 3, 1⟩]

/-- The C3 position: day-order coordinates `[0.1, 0.9, 0.3, 0.7]` interleaved
with within-day-order coordinates `[0.2, 0.2, 0.8, 0.8]`. -/
def c3Position : List ℚ :=
  [1/10, 2/10, 9/10, 2/10, 3/10, 8/10, 7/10, 8/10]

/-- The two-course group of the C4 counterexample (`id_matkul` 1 and 2). -/
def c4Courses : List CourseRequest :=
  [⟨1, 1, 1, 1, 1, 1, 3, 1⟩, ⟨2, 2, 1, 1, 1, 1, 3, 1⟩]

/-- The C4 environment: the fitness oracle reports 5 when the `id_matkul = 1`
section starts at minute 600 and 10 otherwise, so moving the particle (which
swaps the within-day order of the two sections) strictly improves fitness. -/
def c4Env : Pso.Env :=
  { courses := c4Courses, sum_ruangan := 1, swarm_size := 1, max_iterations := 1,
    cognitive_weight := 0, social_weight := 0, inertia_weight := 1,
    velocity_clamp := 1, position_clamp := 1,
    calcFit := (fun s =>
      (if s.any (fun c => c.id_matkul == 1 && c.jam_mulai == 600) then .val 5
       else .val 10, ConflictInfo.default)),
    rnd := (fun _ _ _ => (0, 0)), stop := (fun _ => false) }

/-- The C4 swarm state after initialization: one particle at position
`[0.2, 0.1, 0.8, 0.9]` (fitness 10, already the personal and global best) with
velocity `[0, 0.9, 0, -0.9]`, which moves it to `[0.2, 1, 0.8, 0]`
(fitness 5). -/
def c4St : Pso.Swarm :=
  { particles := [⟨[1/5, 1/10, 4/5, 9/10], [0, 9/10, 0, -(9/10)],
      [1/5, 1/10, 4/5, 9/10], .val 10⟩],
    global_best_position := [1/5, 1/10, 4/5, 9/10],
    global_best_fitness := .val 10 }

/-- A concrete f32 run environment: one course, one iteration, constant
fitness 5, no stop signal. -/
def c5Env : Alg.Env :=
  { courses := [wCourse], swarm_size := 1, max_iterations := 1,
    cognitive_weight := 0, social_weight := 0, inertia_weight := 1,
    calcFit := (fun _ => .val 5), rnd := (fun _ _ _ => (0, 0)),
    stop := (fun _ => false), run_info := (0, 1), abf := [] }

/-- `c5Env` with zero iterations (claim C7 counterexample). -/
def c7Env : Alg.Env := { c5Env with max_iterations := 0 }

/-- A concrete f32 particle of dimension 2. -/
def c5Particle : Alg.Particle := ⟨[1/2, 1/2], [0, 0], [0, 0], .inf, .inf⟩

/-- Range sampler returning the lower bound of each requested range. -/
def wGen : ℕ → ℚ → ℚ → ℚ := fun _ lo _ => lo

/-- Range sampler returning the constant 1/2 (used only to evaluate
`Particle::new` at a concrete random draw). -/
def cGen : ℕ → ℚ → ℚ → ℚ := fun _ _ _ => mkRat 1 2

/-- `wEnvF64` with one iteration and a negative velocity clamp: the first
velocity update calls `clamp(-velocity_clamp, velocity_clamp)` with an
inverted range, which panics. -/
def cClampEnv : Pso.Env :=
  { wEnvF64 with max_iterations := 1, velocity_clamp := -1 }

/-- Identity shuffle (a legitimate permutation). -/
def wShuffle : List ℚ → List ℚ := id

/-! ## General lemmas -/

theorem Fit.le_refl (a : Fit) : Fit.le a a := by
  cases a <;> simp [Fit.le]

theorem Fit.lt_le {a b : Fit} (h : Fit.lt a b) : Fit.le a b := by
  cases a <;> cases b <;> simp_all [Fit.lt, Fit.le]
  exact le_of_lt h

theorem Fit.le_trans {a b c : Fit} (h₁ : Fit.le a b) (h₂ : Fit.le b c) : Fit.le a c := by
  cases a <;> cases b <;> cases c <;> simp_all [Fit.le]
  exact h₁.trans h₂

theorem insBy_perm (le : α → α → Bool) (x : α) (l : List α) :
    (insBy le x l).Perm (x :: l) := by
  induction l with
  | nil => simp [insBy]
  | cons y ys ih =>
    simp only [insBy]
    split
    · exact ((ih.cons y).trans (List.Perm.swap x y ys))
    · exact List.Perm.refl _

theorem foldl_insBy_perm (le : α → α → Bool) (l acc : List α) :
    (l.foldl (fun acc x => insBy le x acc) acc).Perm (acc ++ l) := by
  induction l generalizing acc with
  | nil => simp
  | cons x xs ih =>
    simp only [List.foldl_cons]
    have h1 := ih (insBy le x acc)
    have h2 : (insBy le x acc ++ xs).Perm (acc ++ x :: xs) :=
      ((insBy_perm le x acc).append_right xs).trans List.perm_middle.symm
    exact h1.trans h2

theorem isortBy_perm (le : α → α → Bool) (l : List α) : (isortBy le l).Perm l := by
  simpa [isortBy] using foldl_insBy_perm le l []

theorem mem_isortBy {le : α → α → Bool} {l : List α} {x : α} :
    x ∈ isortBy le l ↔ x ∈ l := (isortBy_perm le l).mem_iff

theorem mem_of_groupPairs [DecidableEq κ] {key : α → κ} {l : List α}
    {kg : κ × List α} (hkg : kg ∈ groupPairs key l) :
    ∀ x ∈ kg.2, key x = kg.1 ∧ x ∈ l := by
  intro x hx
  obtain ⟨k, -, rfl⟩ := List.mem_map.1 hkg
  simp only [List.mem_filter, decide_eq_true_eq] at hx
  exact ⟨hx.2, hx.1⟩

/-- The two time-assignment walks agree pointwise. -/
theorem timeGoF32_eq_timeGoF64 (start_ end_ ct : ℕ)
    (l : List (ℚ × OptimizedCourse)) :
    timeGoF32 start_ end_ ct l = timeGoF64 start_ end_ ct l := by
  induction l generalizing ct with
  | nil => rfl
  | cons e rest ih =>
    obtain ⟨u, c⟩ := e
    simp only [timeGoF32, timeGoF64]
    by_cases h : ct + c.sks * 40 ≤ end_
    · rw [if_neg (by omega), if_pos h, ih]
    · rw [if_pos (by omega), if_neg h, ih]

/-! ### Day- and time-assignment trace lemmas -/

theorem findDay_some_lt {loads : ℕ → ℕ} {sks maxSks : ℕ} :
    ∀ cd d, findDay loads sks maxSks cd = some d → d < 5 := by
  intro cd
  induction cd using findDay.induct loads sks maxSks with
  | case1 cd hlt hfit =>
    intro d h
    rw [findDay, if_pos hlt, if_pos hfit] at h
    exact Option.some_injective _ h ▸ hlt
  | case2 cd hlt hfit ih =>
    intro d h
    rw [findDay, if_pos hlt, if_neg hfit] at h
    exact ih d h
  | case3 cd hlt =>
    intro d h
    rw [findDay, if_neg hlt] at h
    exact absurd h (by simp)

/-- Every output of the day-assignment loop has a day in `1..=5`, a group key
recomputed from its own fields, and is a member of the input with only `hari`
changed. -/
theorem dayGo_mem (maxSks : ℕ) :
    ∀ (loads : ℕ → ℕ) (cd : ℕ) (l : List (ℚ × ℚ × OptimizedCourse))
      (t : (ℕ × ℕ × ℕ × ℕ × ℕ) × ℚ × OptimizedCourse),
      t ∈ dayGo maxSks loads cd l →
      (1 ≤ t.2.2.hari ∧ t.2.2.hari ≤ 5) ∧
      t.1 = (t.2.2.prodi, t.2.2.semester, t.2.2.id_kelas, t.2.2.id_waktu, t.2.2.hari) ∧
      ∃ e ∈ l, t.2.1 = e.2.1 ∧ t.2.2 = { e.2.2 with hari := t.2.2.hari } := by
  intro loads cd l
  induction l generalizing loads cd with
  | nil => intro t ht; simp [dayGo] at ht
  | cons hd rest ih =>
    obtain ⟨dord, u, c⟩ := hd
    intro t ht
    simp only [dayGo] at ht
    rcases hfd : findDay loads c.sks maxSks cd with _ | d <;> rw [hfd] at ht
    · rcases List.mem_cons.1 ht with rfl | htl
      · exact ⟨⟨by simp, by simp⟩, rfl, ⟨(dord, u, c), List.mem_cons_self .., rfl, rfl⟩⟩
      · obtain ⟨hb, hk, e, he, hu, hc⟩ := ih loads 5 t htl
        exact ⟨hb, hk, e, List.mem_cons_of_mem _ he, hu, hc⟩
    · have hd5 := findDay_some_lt cd d hfd
      rcases List.mem_cons.1 ht with rfl | htl
      · exact ⟨⟨by simp, by simp; omega⟩, rfl, ⟨(dord, u, c), List.mem_cons_self .., rfl, rfl⟩⟩
      · obtain ⟨hb, hk, e, he, hu, hc⟩ := ih (bump loads d c.sks) d t htl
        exact ⟨hb, hk, e, List.mem_cons_of_mem _ he, hu, hc⟩

/-- Every output of the f64 time-assignment walk is a member of the input with
only the `jam` fields changed; it starts no earlier than the window start, and
either ends within the window or was wrapped back to the window start. -/
theorem timeGoF64_mem (start_ max_ : ℕ) :
    ∀ (ct : ℕ) (l : List (ℚ × OptimizedCourse)) (c : OptimizedCourse),
      start_ ≤ ct → c ∈ timeGoF64 start_ max_ ct l →
      ∃ e ∈ l, c = { e.2 with jam_mulai := c.jam_mulai,
                              jam_akhir := c.jam_mulai + e.2.sks * 40 } ∧
        start_ ≤ c.jam_mulai ∧
        (c.jam_mulai + e.2.sks * 40 ≤ max_ ∨ c.jam_mulai = start_) := by
  intro ct l
  induction l generalizing ct with
  | nil => intro c _ hc; simp [timeGoF64] at hc
  | cons hd rest ih =>
    obtain ⟨u, e⟩ := hd
    intro c hct hc
    simp only [timeGoF64] at hc
    by_cases hfit : ct + e.sks * 40 ≤ max_ <;>
      [rw [if_pos hfit] at hc; rw [if_neg hfit] at hc]
    · rcases List.mem_cons.1 hc with rfl | htl
      · exact ⟨(u, e), List.mem_cons_self .., rfl, hct, Or.inl hfit⟩
      · obtain ⟨e', he', hc', hs, hw⟩ := ih (ct + e.sks * 40) c (by omega) htl
        exact ⟨e', List.mem_cons_of_mem _ he', hc', hs, hw⟩
    · rcases List.mem_cons.1 hc with rfl | htl
      · exact ⟨(u, e), List.mem_cons_self .., rfl, le_refl _, Or.inr rfl⟩
      · obtain ⟨e', he', hc', hs, hw⟩ := ih (start_ + e.sks * 40) c (by omega) htl
        exact ⟨e', List.mem_cons_of_mem _ he', hc', hs, hw⟩

/-- Every section produced by a day-assignment phase (grouping by the 4-tuple
key, sorting by day-order, running `dayGo` with a per-group capacity) has a
day in `1..=5`, its key recomputed from its own fields, and comes from some
input entry with only `hari` changed. -/
theorem dayPhase_mem (msk : List (ℚ × ℚ × OptimizedCourse) → ℕ)
    (entries : List ((ℕ × ℕ × ℕ × ℕ) × ℚ × ℚ × OptimizedCourse)) :
    ∀ t ∈ (groupPairs (fun e => e.1) entries).flatMap (fun kg =>
        dayGo (msk (isortBy dayLe (kg.2.map fun e => e.2))) (fun _ => 0) 0
          (isortBy dayLe (kg.2.map fun e => e.2))),
      (1 ≤ t.2.2.hari ∧ t.2.2.hari ≤ 5) ∧
      t.1 = (t.2.2.prodi, t.2.2.semester, t.2.2.id_kelas, t.2.2.id_waktu, t.2.2.hari) ∧
      ∃ e ∈ entries, t.2.2 = { e.2.2.2 with hari := t.2.2.hari } := by
  intro t ht
  obtain ⟨kg, hkg, hmem⟩ := List.mem_flatMap.1 ht
  obtain ⟨hb, hk, e2, he2, -, hc⟩ := dayGo_mem _ _ _ _ _ hmem
  refine ⟨hb, hk, ?_⟩
  obtain ⟨e, he, rfl⟩ := List.mem_map.1 (mem_isortBy.1 he2)
  exact ⟨e, (mem_of_groupPairs hkg e he).2, hc⟩

/-- Every section produced by a time-assignment phase (grouping by the 5-tuple
key, sorting by within-day order, walking `timeGoF64` in the session window of
the key) comes from an input tuple with only the `jam` fields changed, and —
provided each input tuple's key agrees with its own fields — satisfies the
window bounds for its own `id_waktu` and keeps its day bounds. -/
theorem timePhase_mem (withDay : List ((ℕ × ℕ × ℕ × ℕ × ℕ) × ℚ × OptimizedCourse))
    (hW : ∀ t ∈ withDay,
      t.1 = (t.2.2.prodi, t.2.2.semester, t.2.2.id_kelas, t.2.2.id_waktu, t.2.2.hari)) :
    ∀ c ∈ (groupPairs (fun e => e.1) withDay).flatMap (fun kg =>
        timeGoF64 (sessionWindow kg.1.2.2.2.1).1 (sessionWindow kg.1.2.2.2.1).2
          (sessionWindow kg.1.2.2.2.1).1 (isortBy timeLe (kg.2.map fun e => e.2))),
      ∃ t ∈ withDay,
        c = { t.2.2 with jam_mulai := c.jam_mulai,
                         jam_akhir := c.jam_mulai + t.2.2.sks * 40 } ∧
        (sessionWindow c.id_waktu).1 ≤ c.jam_mulai ∧
        (c.jam_mulai + t.2.2.sks * 40 ≤ (sessionWindow c.id_waktu).2 ∨
          c.jam_mulai = (sessionWindow c.id_waktu).1) := by
  intro c hc
  obtain ⟨kg, hkg, hmem⟩ := List.mem_flatMap.1 hc
  obtain ⟨e', he', hc', hs, hw⟩ := timeGoF64_mem _ _ _ _ _ (le_refl _) hmem
  obtain ⟨t, ht, rfl⟩ := List.mem_map.1 (mem_isortBy.1 he')
  obtain ⟨hkey, htW⟩ := mem_of_groupPairs hkg t ht
  have hwaktu : c.id_waktu = t.2.2.id_waktu := by rw [hc']
  have hkg1 : kg.1.2.2.2.1 = t.2.2.id_waktu := by rw [← hkey, hW t htW]
  rw [hkg1, ← hwaktu] at hs hw
  exact ⟨t, htW, hc', hs, hw⟩

namespace Pso

/-- Every entry built in "Step 1" of the f64 decoder carries the room looked
up for its own `(prodi, semester, id_kelas)` key. -/
theorem mkEntries_room (position : List ℚ) (courses : List CourseRequest)
    (alloc : List ((ℕ × ℕ × ℕ) × ℕ)) :
    ∀ e ∈ mkEntries position courses alloc,
      e.2.2.2.ruangan =
        lookupRoom alloc (e.2.2.2.prodi, e.2.2.2.semester, e.2.2.2.id_kelas) := by
  intro e he
  obtain ⟨i, -, rfl⟩ := List.mem_map.1 he
  rfl

/-- Full provenance of the f64 decoder output: each scheduled section has a
day in `1..=5`, `jam_akhir = jam_mulai + sks × 40`, starts no earlier than its
session-window start, ends inside the window unless it was wrapped back to the
window start, and carries the pre-allocated room of its own group key. -/
theorem position_to_schedule_mem {position : List ℚ} {courses : List CourseRequest}
    {sum_ruangan : ℕ} {alloc : List ((ℕ × ℕ × ℕ) × ℕ)} {out : List OptimizedCourse}
    (halloc : allocRooms sum_ruangan (sortedGroups courses) 1 = some alloc)
    (hout : position_to_schedule position courses sum_ruangan = some out) :
    ∀ c ∈ out,
      (1 ≤ c.hari ∧ c.hari ≤ 5) ∧
      c.jam_akhir = c.jam_mulai + c.sks * 40 ∧
      (sessionWindow c.id_waktu).1 ≤ c.jam_mulai ∧
      (c.jam_akhir ≤ (sessionWindow c.id_waktu).2 ∨
        c.jam_mulai = (sessionWindow c.id_waktu).1) ∧
      c.ruangan = lookupRoom alloc (c.prodi, c.semester, c.id_kelas) := by
  unfold position_to_schedule at hout
  rw [halloc] at hout
  obtain rfl := (Option.some_inj.1 hout).symm
  intro c hc
  have hday := dayPhase_mem (fun _ => 6) (mkEntries position courses alloc)
  obtain ⟨t, htW, hc', hs, hw⟩ := timePhase_mem _ (fun t ht => (hday t ht).2.1) c hc
  obtain ⟨hb, -, e, he, hfields⟩ := hday t htW
  have hsks : c.sks = t.2.2.sks := by rw [hc']
  have hhari : c.hari = t.2.2.hari := by rw [hc']
  have hakhir : c.jam_akhir = c.jam_mulai + t.2.2.sks * 40 := by rw [hc']
  refine ⟨⟨by omega, by omega⟩, by rw [hakhir, hsks], hs, by rw [hakhir]; exact hw, ?_⟩
  have hroom := mkEntries_room position courses alloc e he
  have hcr : c.ruangan = t.2.2.ruangan := by rw [hc']
  have hcp : c.prodi = t.2.2.prodi := by rw [hc']
  have hcs : c.semester = t.2.2.semester := by rw [hc']
  have hck : c.id_kelas = t.2.2.id_kelas := by rw [hc']
  have htr : t.2.2.ruangan = e.2.2.2.ruangan := by rw [hfields]
  have htp : t.2.2.prodi = e.2.2.2.prodi := by rw [hfields]
  have hts : t.2.2.semester = e.2.2.2.semester := by rw [hfields]
  have htk : t.2.2.id_kelas = e.2.2.2.id_kelas := by rw [hfields]
  rw [hcr, hcp, hcs, hck, htr, htp, hts, htk, hroom]

end Pso

namespace Alg

/-- Full provenance of the f32 decoder output: each scheduled section has a
day in `1..=5`, `jam_akhir = jam_mulai + sks × 40`, starts no earlier than its
session-window start, and ends inside the window unless it was wrapped back to
the window start. -/
theorem position_to_schedule_mem32 (position : List ℚ) (courses : List CourseRequest) :
    ∀ c ∈ position_to_schedule position courses,
      (1 ≤ c.hari ∧ c.hari ≤ 5) ∧
      c.jam_akhir = c.jam_mulai + c.sks * 40 ∧
      (sessionWindow c.id_waktu).1 ≤ c.jam_mulai ∧
      (c.jam_akhir ≤ (sessionWindow c.id_waktu).2 ∨
        c.jam_mulai = (sessionWindow c.id_waktu).1) := by
  intro c hc
  unfold position_to_schedule at hc
  simp only [timeGoF32_eq_timeGoF64] at hc
  set entries := (List.range (min courses.length (position.length / 2))).map
    (fun i =>
      let cr := courses.getD i default
      ((cr.prodi, cr.semester, cr.id_kelas, cr.id_waktu),
       position.getD (i * 2) 0, position.getD (i * 2 + 1) 0, mkEntry cr)) with hentries
  have hday := dayPhase_mem (fun sorted => if sorted.length = 4 then 3 else 6) entries
  obtain ⟨t, htW, hc', hs, hw⟩ := timePhase_mem _ (fun t ht => (hday t ht).2.1) c hc
  obtain ⟨hb, -, -⟩ := hday t htW
  have hsks : c.sks = t.2.2.sks := by rw [hc']
  have hhari : c.hari = t.2.2.hari := by rw [hc']
  have hakhir : c.jam_akhir = c.jam_mulai + t.2.2.sks * 40 := by rw [hc']
  exact ⟨⟨by omega, by omega⟩, by rw [hakhir, hsks], hs, by rw [hakhir]; exact hw⟩

end Alg

/-! ### Room-allocation lemmas (f64 engine) -/

namespace Pso

theorem allocRooms_isSome {sum_ruangan : ℕ} (hR : 1 ≤ sum_ruangan) :
    ∀ (gs : List (ℕ × ℕ × ℕ)) (r : ℕ), (allocRooms sum_ruangan gs r).isSome := by
  intro gs
  induction gs with
  | nil => intro r; simp [allocRooms]
  | cons g gs ih =>
    intro r
    obtain ⟨l, hl⟩ := Option.isSome_iff_exists.1 (ih (r % sum_ruangan + 1))
    simp [allocRooms, if_neg (by omega : ¬ sum_ruangan = 0), hl]

theorem allocRooms_of_zero {gs : List (ℕ × ℕ × ℕ)} (hne : gs ≠ []) (r : ℕ) :
    allocRooms 0 gs r = none := by
  cases gs with
  | nil => exact absurd rfl hne
  | cons g gs => simp [allocRooms]

/-- Closed form of the room-allocation loop: starting the counter at a room
`r ∈ [1, sum_ruangan]`, the k-th group (0-based) receives room
`(r - 1 + k) % sum_ruangan + 1`. -/
theorem allocRooms_get {sum_ruangan : ℕ} (hR : 1 ≤ sum_ruangan) :
    ∀ (gs : List (ℕ × ℕ × ℕ)) (r : ℕ), 1 ≤ r → r ≤ sum_ruangan →
      ∀ (k : ℕ) (g : ℕ × ℕ × ℕ) (l : List ((ℕ × ℕ × ℕ) × ℕ)),
        allocRooms sum_ruangan gs r = some l → gs.get? k = some g →
        l.get? k = some (g, (r - 1 + k) % sum_ruangan + 1) := by
  intro gs
  induction gs with
  | nil => intro r _ _ k g l _ hg; simp at hg
  | cons g0 gs ih =>
    intro r hr1 hrR k g l hl hg
    have hmod : r % sum_ruangan < sum_ruangan := Nat.mod_lt r (by omega)
    simp only [allocRooms, if_neg (by omega : ¬ sum_ruangan = 0)] at hl
    obtain ⟨l', hl', rfl⟩ := Option.map_eq_some'.1 hl
    cases k with
    | zero =>
      simp only [List.get?_cons_zero, Option.some.injEq] at hg
      subst hg
      have hmod0 : (r - 1 + 0) % sum_ruangan = r - 1 := Nat.mod_eq_of_lt (by omega)
      simp only [List.get?_cons_zero, hmod0, Option.some.injEq]
      refine Prod.ext rfl ?_
      simp only
      omega
    | succ k =>
      simp only [List.get?_cons_succ] at hg ⊢
      have := ih (r % sum_ruangan + 1) (by omega) (by omega) k g l' hl' hg
      rw [this]
      have harg : (r % sum_ruangan + 1 - 1 + k) % sum_ruangan =
          (r - 1 + (k + 1)) % sum_ruangan := by
        have h1 : r % sum_ruangan + 1 - 1 + k = r % sum_ruangan + k := by omega
        have h2 : r - 1 + (k + 1) = r + k := by omega
        rw [h1, h2, Nat.mod_add_mod]
      rw [harg]

/-- With at least one room, the f64 decoder never panics. -/
theorem position_to_schedule_isSome {sum_ruangan : ℕ} (hR : 1 ≤ sum_ruangan)
    (position : List ℚ) (courses : List CourseRequest) :
    (position_to_schedule position courses sum_ruangan).isSome := by
  unfold position_to_schedule
  obtain ⟨alloc, halloc⟩ :=
    Option.isSome_iff_exists.1 (allocRooms_isSome hR (sortedGroups courses) 1)
  rw [halloc]
  rfl

/-! ### f64 optimizer lemmas -/

theorem Fit.le_of_not_lt {a b : Fit} (h : ¬ Fit.lt a b) : Fit.le b a := by
  cases a <;> cases b <;> simp_all [Fit.lt, Fit.le]

theorem update_global_best_le (st : Swarm) :
    Fit.le (update_global_best st).global_best_fitness st.global_best_fitness := by
  unfold update_global_best
  split
  · exact Fit.le_refl _
  · split
    · rename_i best hlt
      exact Fit.lt_le hlt
    · exact Fit.le_refl _

theorem iterBody_le {env : Env} {iter : ℕ} {st st' : Swarm}
    (h : iterBody env iter st = some st') :
    Fit.le st'.global_best_fitness st.global_best_fitness := by
  unfold iterBody at h
  rcases hps : stepParticles env st.global_best_position iter 0 st.particles with _ | ps
  · rw [hps] at h; simp at h
  · rw [hps] at h
    simp only [Option.bind_eq_bind, Option.some_bind, Option.pure_def,
      Option.some.injEq] at h
    subst h
    exact update_global_best_le _

theorem statusEvent_spec {env : Env} {iter : ℕ} {st : Swarm} {ev : OptimizationStatus}
    (h : statusEvent env iter st = some ev) :
    ev.best_fitness = st.global_best_fitness ∧ ev.is_finished = false := by
  unfold statusEvent at h
  rcases hs : position_to_schedule st.global_best_position env.courses env.sum_ruangan
    with _ | sched
  · rw [hs] at h; simp at h
  · rw [hs] at h
    simp only [Option.bind_eq_bind, Option.some_bind, Option.pure_def,
      Option.some.injEq] at h
    subst h
    exact ⟨rfl, rfl⟩

/-- Loop invariant of the f64 iteration loop: the starting global-best fitness
followed by the best-fitness values of the published events is non-increasing,
it ends at the final global-best fitness, and no in-loop event is finished. -/
theorem optimizeLoop_spec (env : Env) :
    ∀ (remaining iter : ℕ) (st : Swarm) (evs : List OptimizationStatus) (st' : Swarm),
      optimizeLoop env iter remaining st = some (evs, st') →
      List.Chain' (fun a b => Fit.le b a)
        (st.global_best_fitness :: evs.map (fun e => e.best_fitness)) ∧
      (st.global_best_fitness :: evs.map (fun e => e.best_fitness)).getLast? =
        some st'.global_best_fitness ∧
      ∀ e ∈ evs, e.is_finished = false := by
  intro remaining
  induction remaining with
  | zero =>
    intro iter st evs st' h
    simp only [optimizeLoop, Option.some.injEq, Prod.mk.injEq] at h
    obtain ⟨h4, h5⟩ := h
    subst h4; subst h5
    exact ⟨List.chain'_singleton _, by simp, by simp⟩
  | succ r ih =>
    intro iter st evs st' h
    simp only [optimizeLoop] at h
    by_cases hstop : env.stop iter
    · rw [if_pos hstop] at h
      simp only [Option.some.injEq, Prod.mk.injEq] at h
      obtain ⟨h4, h5⟩ := h
      subst h4; subst h5
      exact ⟨List.chain'_singleton _, by simp, by simp⟩
    · rw [if_neg hstop] at h
      rcases h1 : iterBody env iter st with _ | st1
      · rw [h1] at h; simp at h
      rw [h1] at h
      simp only [Option.bind_eq_bind, Option.some_bind] at h
      rcases h2 : statusEvent env iter st1 with _ | ev
      · rw [h2] at h; simp at h
      rw [h2] at h
      simp only [Option.some_bind] at h
      rcases h3 : optimizeLoop env (iter + 1) r st1 with _ | rest
      · rw [h3] at h; simp at h
      obtain ⟨restEvs, restSt⟩ := rest
      rw [h3] at h
      simp only [Option.some_bind, Option.pure_def, Option.some.injEq,
        Prod.mk.injEq] at h
      obtain ⟨h4, h5⟩ := h
      subst h4; subst h5
      obtain ⟨hch, hlast, hnf⟩ := ih (iter + 1) st1 restEvs restSt h3
      obtain ⟨hbest, hfin⟩ := statusEvent_spec h2
      refine ⟨?_, ?_, ?_⟩
      · rw [List.map_cons]
        exact List.chain'_cons.2 ⟨hbest ▸ iterBody_le h1, hbest ▸ hch⟩
      · rw [List.map_cons, List.getLast?_cons_cons]
        exact hbest ▸ hlast
      · intro e he
        rcases List.mem_cons.1 he with rfl | he'
        · exact hfin
        · exact hnf e he'

theorem init_step_best (p : Particle) (fitness : Fit) (st : Swarm) :
    (Fit.lt fitness st.global_best_fitness →
      (init_step p fitness st).global_best_fitness = fitness ∧
      (init_step p fitness st).global_best_position = p.position) ∧
    (¬ Fit.lt fitness st.global_best_fitness →
      (init_step p fitness st).global_best_fitness = st.global_best_fitness ∧
      (init_step p fitness st).global_best_position = st.global_best_position) := by
  by_cases hf : Fit.lt fitness st.global_best_fitness
  · refine ⟨fun _ => ?_, fun h => absurd hf h⟩
    unfold init_step
    dsimp only
    rw [if_pos hf]
    exact ⟨rfl, rfl⟩
  · refine ⟨fun h => absurd h hf, fun _ => ?_⟩
    unfold init_step
    dsimp only
    rw [if_neg hf]
    exact ⟨rfl, rfl⟩

/-- What `initialize_swarm` (f64) computes for the global best: it only
improves, it is a lower bound of every initial evaluation, and it is either
untouched or equal to the evaluation of some particle's initial position
(with the matching position installed). -/
theorem init_swarm_spec (env : Env) :
    ∀ (ps : List Particle) (st st' : Swarm), init_swarm env ps st = some st' →
      Fit.le st'.global_best_fitness st.global_best_fitness ∧
      (∀ p ∈ ps, ∀ s,
        position_to_schedule p.position env.courses env.sum_ruangan = some s →
        Fit.le st'.global_best_fitness (env.calcFit s).1) ∧
      ((st'.global_best_fitness = st.global_best_fitness ∧
          st'.global_best_position = st.global_best_position) ∨
        ∃ p ∈ ps, ∃ s,
          position_to_schedule p.position env.courses env.sum_ruangan = some s ∧
          st'.global_best_fitness = (env.calcFit s).1 ∧
          st'.global_best_position = p.position) := by
  intro ps
  induction ps with
  | nil =>
    intro st st' h
    simp only [init_swarm, Option.some.injEq] at h
    subst h
    exact ⟨Fit.le_refl _, by simp, Or.inl ⟨rfl, rfl⟩⟩
  | cons p ps ih =>
    intro st st' h
    simp only [init_swarm] at h
    rcases hs : position_to_schedule p.position env.courses env.sum_ruangan with _ | sched
    · rw [hs] at h; simp at h
    rw [hs] at h
    simp only [Option.bind_eq_bind, Option.some_bind] at h
    obtain ⟨hle, hall, hd⟩ := ih _ st' h
    have hstep := init_step_best p (env.calcFit sched).1 st
    by_cases hf : Fit.lt (env.calcFit sched).1 st.global_best_fitness
    · obtain ⟨hgf, hgp⟩ := hstep.1 hf
      refine ⟨?_, ?_, ?_⟩
      · exact Fit.le_trans (hgf ▸ hle) (Fit.lt_le hf)
      · intro q hq s hqs
        rcases List.mem_cons.1 hq with rfl | hq'
        · rw [hqs] at hs
          obtain rfl := Option.some_inj.1 hs
          exact hgf ▸ hle
        · exact hall q hq' s hqs
      · rcases hd with ⟨he1, he2⟩ | ⟨q, hq, s, hqs, he1, he2⟩
        · exact Or.inr ⟨p, List.mem_cons_self .., sched, hs, he1.trans hgf,
            he2.trans hgp⟩
        · exact Or.inr ⟨q, List.mem_cons_of_mem _ hq, s, hqs, he1, he2⟩
    · obtain ⟨hgf, hgp⟩ := hstep.2 hf
      refine ⟨hgf ▸ hle, ?_, ?_⟩
      · intro q hq s hqs
        rcases List.mem_cons.1 hq with rfl | hq'
        · rw [hqs] at hs
          obtain rfl := Option.some_inj.1 hs
          exact Fit.le_trans (hgf ▸ hle) (Fit.le_of_not_lt hf)
        · exact hall q hq' s hqs
      · rcases hd with ⟨he1, he2⟩ | ⟨q, hq, s, hqs, he1, he2⟩
        · exact Or.inl ⟨he1.trans hgf, he2.trans hgp⟩
        · exact Or.inr ⟨q, List.mem_cons_of_mem _ hq, s, hqs, he1, he2⟩

/-- Unpacking a successful run of the f64 `optimize`: the initialization
state, the loop result, the event list (loop events then the final finished
status), and the returned position. -/
theorem optimize_spec {env : Env} {ps : List Particle}
    {evs : List OptimizationStatus} {pos : List ℚ}
    (h : optimize env ps = some (evs, pos)) :
    ∃ st1 r1 r2, init_swarm env ps (initState env) = some st1 ∧
      optimizeLoop env 0 env.max_iterations st1 = some (r1, r2) ∧
      evs = r1 ++ [finalStatus env r2] ∧ pos = r2.global_best_position := by
  unfold optimize at h
  rcases h1 : init_swarm env ps (initState env) with _ | st1
  · rw [h1] at h; simp at h
  rw [h1] at h
  simp only [Option.bind_eq_bind, Option.some_bind] at h
  rcases h2 : optimizeLoop env 0 env.max_iterations st1 with _ | r
  · rw [h2] at h; simp at h
  obtain ⟨r1, r2⟩ := r
  rw [h2] at h
  simp only [Option.bind_eq_bind, Option.some_bind, Option.pure_def, Option.some.injEq,
    Prod.mk.injEq] at h
  obtain ⟨h4, h5⟩ := h
  exact ⟨st1, r1, r2, rfl, h2, h4.symm, h5.symm⟩

/-! ### Totality of the f64 engine for a positive room count -/

theorem clampQ_isSome {x lo hi : ℚ} (h : lo ≤ hi) : (clampQ x lo hi).isSome := by
  simp [clampQ, h]

theorem seqOption_isSome {l : List (Option α)} (h : ∀ o ∈ l, o.isSome) :
    (seqOption l).isSome := by
  induction l with
  | nil => simp [seqOption]
  | cons o os ih =>
    obtain ⟨v, hv⟩ := Option.isSome_iff_exists.1 (h o (List.mem_cons_self ..))
    obtain ⟨rest, hrest⟩ :=
      Option.isSome_iff_exists.1 (ih fun o' ho' => h o' (List.mem_cons_of_mem _ ho'))
    simp [seqOption, hv, hrest]

theorem optionBind_isSome {o : Option α} {f : α → Option β}
    (ho : o.isSome) (hf : ∀ a, (f a).isSome) : (o >>= f).isSome := by
  obtain ⟨a, rfl⟩ := Option.isSome_iff_exists.1 ho
  exact hf a

/-- With a non-negative velocity clamp, the velocity update never panics. -/
theorem update_velocity_isSome (p : Particle) (gbest : List ℚ)
    (inertia_weight cognitive_weight social_weight : ℚ) {velocity_clamp : ℚ}
    (hv : 0 ≤ velocity_clamp) (r1 r2 : ℕ → ℚ) :
    (p.update_velocity gbest inertia_weight cognitive_weight social_weight
      velocity_clamp r1 r2).isSome := by
  unfold Particle.update_velocity
  refine optionBind_isSome (seqOption_isSome ?_) (fun _ => rfl)
  intro o ho
  obtain ⟨i, -, rfl⟩ := List.mem_map.1 ho
  exact clampQ_isSome (by linarith)

/-- With a non-negative position clamp, the position update never panics. -/
theorem update_position_isSome (p : Particle) {position_clamp : ℚ}
    (hp : 0 ≤ position_clamp) :
    (p.update_position position_clamp).isSome := by
  unfold Particle.update_position
  refine optionBind_isSome (seqOption_isSome ?_) (fun _ => rfl)
  intro o ho
  obtain ⟨i, -, rfl⟩ := List.mem_map.1 ho
  exact clampQ_isSome hp

theorem particleStep_isSome {env : Env} (hR : 1 ≤ env.sum_ruangan)
    (hv : 0 ≤ env.velocity_clamp) (hp : 0 ≤ env.position_clamp)
    (gbest : List ℚ) (iter pi : ℕ) (p : Particle) :
    (particleStep env gbest iter pi p).isSome := by
  unfold particleStep
  obtain ⟨p1, hp1⟩ := Option.isSome_iff_exists.1
    (update_velocity_isSome p gbest env.inertia_weight env.cognitive_weight
      env.social_weight hv (fun i => (env.rnd iter pi i).1)
      (fun i => (env.rnd iter pi i).2))
  rw [hp1]
  simp only [Option.bind_eq_bind, Option.some_bind]
  obtain ⟨p2, hp2⟩ := Option.isSome_iff_exists.1 (update_position_isSome p1 hp)
  rw [hp2]
  simp only [Option.some_bind]
  obtain ⟨s, hs⟩ := Option.isSome_iff_exists.1
    (position_to_schedule_isSome hR p2.position env.courses)
  rw [hs]
  rfl

theorem stepParticles_isSome {env : Env} (hR : 1 ≤ env.sum_ruangan)
    (hv : 0 ≤ env.velocity_clamp) (hp : 0 ≤ env.position_clamp)
    (gbest : List ℚ) (iter : ℕ) :
    ∀ (ps : List Particle) (pi : ℕ), (stepParticles env gbest iter pi ps).isSome := by
  intro ps
  induction ps with
  | nil => intro pi; simp [stepParticles]
  | cons p ps ih =>
    intro pi
    obtain ⟨p', hp'⟩ := Option.isSome_iff_exists.1
      (particleStep_isSome hR hv hp gbest iter pi p)
    obtain ⟨rest, hrest⟩ := Option.isSome_iff_exists.1 (ih (pi + 1))
    simp [stepParticles, hp', hrest]

theorem statusEvent_isSome {env : Env} (hR : 1 ≤ env.sum_ruangan)
    (iter : ℕ) (st : Swarm) : (statusEvent env iter st).isSome := by
  unfold statusEvent
  obtain ⟨s, hs⟩ := Option.isSome_iff_exists.1
    (position_to_schedule_isSome hR st.global_best_position env.courses)
  rw [hs]
  rfl

theorem iterBody_isSome {env : Env} (hR : 1 ≤ env.sum_ruangan)
    (hv : 0 ≤ env.velocity_clamp) (hp : 0 ≤ env.position_clamp)
    (iter : ℕ) (st : Swarm) : (iterBody env iter st).isSome := by
  unfold iterBody
  obtain ⟨ps, hps⟩ := Option.isSome_iff_exists.1
    (stepParticles_isSome hR hv hp st.global_best_position iter st.particles 0)
  rw [hps]
  rfl

theorem optimizeLoop_isSome {env : Env} (hR : 1 ≤ env.sum_ruangan)
    (hv : 0 ≤ env.velocity_clamp) (hp : 0 ≤ env.position_clamp) :
    ∀ (remaining iter : ℕ) (st : Swarm),
      (optimizeLoop env iter remaining st).isSome := by
  intro remaining
  induction remaining with
  | zero => intro iter st; simp [optimizeLoop]
  | succ r ih =>
    intro iter st
    simp only [optimizeLoop]
    by_cases hstop : env.stop iter
    · rw [if_pos hstop]; rfl
    · rw [if_neg hstop]
      obtain ⟨st1, h1⟩ := Option.isSome_iff_exists.1 (iterBody_isSome hR hv hp iter st)
      obtain ⟨ev, h2⟩ := Option.isSome_iff_exists.1 (statusEvent_isSome hR iter st1)
      obtain ⟨rest, h3⟩ := Option.isSome_iff_exists.1 (ih (iter + 1) st1)
      simp [h1, h2, h3]

theorem init_swarm_isSome {env : Env} (hR : 1 ≤ env.sum_ruangan) :
    ∀ (ps : List Particle) (st : Swarm), (init_swarm env ps st).isSome := by
  intro ps
  induction ps with
  | nil => intro st; simp [init_swarm]
  | cons p ps ih =>
    intro st
    obtain ⟨s, hs⟩ := Option.isSome_iff_exists.1
      (position_to_schedule_isSome hR p.position env.courses)
    simp only [init_swarm, hs, Option.some_bind]
    exact ih _

/-- With at least one room and non-negative clamp parameters, the f64
`optimize` never panics. -/
theorem optimize_isSome {env : Env} (hR : 1 ≤ env.sum_ruangan)
    (hv : 0 ≤ env.velocity_clamp) (hp : 0 ≤ env.position_clamp)
    (ps : List Particle) : (optimize env ps).isSome := by
  unfold optimize
  obtain ⟨st1, h1⟩ := Option.isSome_iff_exists.1 (init_swarm_isSome hR ps (initState env))
  obtain ⟨r, h2⟩ := Option.isSome_iff_exists.1
    (optimizeLoop_isSome hR hv hp env.max_iterations 0 st1)
  rw [h1]
  simp [h2]

end Pso

/-! ### f32 optimizer lemmas -/

namespace Alg

theorem update_global_best_le32 (st : Swarm) :
    Fit.le (update_global_best st).global_best_fitness st.global_best_fitness := by
  unfold update_global_best
  dsimp only
  suffices h : ∀ (ps : List Particle) (g : List ℚ × Fit),
      Fit.le (ps.foldl (fun g p =>
        if Fit.lt p.pbest_fitness g.2 then (p.pbest_position, p.pbest_fitness) else g) g).2
        g.2 by
    exact h st.particles (st.global_best_position, st.global_best_fitness)
  intro ps
  induction ps with
  | nil => intro g; exact Fit.le_refl _
  | cons p ps ih =>
    intro g
    simp only [List.foldl_cons]
    by_cases hlt : Fit.lt p.pbest_fitness g.2
    · rw [if_pos hlt]
      exact Fit.le_trans (ih _) (Fit.lt_le hlt)
    · rw [if_neg hlt]
      exact ih g

theorem iterBody_le32 (env : Env) (iter : ℕ) (st : Swarm) :
    Fit.le (iterBody env iter st).global_best_fitness st.global_best_fitness := by
  unfold iterBody
  dsimp only
  exact update_global_best_le32 _

/-- The f32 loop publishes a non-increasing sequence of best-fitness values:
the starting global best followed by the events' best fitness forms a
`≥`-chain (events are published only on non-break iterations and carry the
just-refreshed global best). -/
theorem optimizeLoop_chain (env : Env) :
    ∀ (remaining iter : ℕ) (st : Swarm),
      List.Chain' (fun a b => Fit.le b a)
        (st.global_best_fitness ::
          (optimizeLoop env iter remaining st).1.map (fun e => e.best_fitness)) := by
  intro remaining
  induction remaining with
  | zero => intro iter st; exact List.chain'_singleton _
  | succ r ih =>
    intro iter st
    simp only [optimizeLoop]
    by_cases hstop : env.stop iter
    · rw [if_pos hstop]
      exact List.chain'_singleton _
    · rw [if_neg hstop]
      by_cases hes : Fit.lt (iterBody env iter st).global_best_fitness (.val (1 / 1000))
      · rw [if_pos hes]
        exact List.chain'_singleton _
      · rw [if_neg hes]
        simp only [List.map_cons]
        refine List.chain'_cons.2 ⟨?_, ?_⟩
        · exact iterBody_le32 env iter st
        · exact ih (iter + 1) (iterBody env iter st)

/-- The event list of a full f32 run is a non-increasing best-fitness chain. -/
theorem optimize_chain (env : Env) (init_particles : List Particle) :
    List.Chain' (fun a b => Fit.le b a)
      ((optimize env init_particles).1.map (fun e => e.best_fitness)) := by
  unfold optimize
  dsimp only
  exact (optimizeLoop_chain env env.max_iterations 0 _).tail

end Alg

namespace Pso

end Pso

/-! ## Claims -/

namespace Pso

/-- A successful f64 decode implies the room allocation itself succeeded. -/
theorem decode_some_alloc {position : List ℚ} {courses : List CourseRequest}
    {sum_ruangan : ℕ} {out : List OptimizedCourse}
    (h : position_to_schedule position courses sum_ruangan = some out) :
    ∃ alloc, allocRooms sum_ruangan (sortedGroups courses) 1 = some alloc := by
  unfold position_to_schedule at h
  rcases halloc : allocRooms sum_ruangan (sortedGroups courses) 1 with _ | alloc
  · rw [halloc] at h; exact absurd h (by simp)
  · exact ⟨alloc, rfl⟩

end Pso

/-- Claim C1: within one run of `optimize`, the global-best fitness never
increases — it is replaced only when some particle's personal-best fitness is
strictly smaller — so the best-fitness values carried by successive progress
events of that run form a non-increasing sequence.  Stated for both engines:
the full event list of an f64 run (loop events followed by the final status)
and the event list of an f32 run are `≥`-chains in best fitness. -/
theorem claim_C1 :
    (∀ (env : Pso.Env) (ps : List Pso.Particle) (evs : List Pso.OptimizationStatus)
        (pos : List ℚ), Pso.optimize env ps = some (evs, pos) →
        List.Chain' (fun a b => Fit.le b a) (evs.map (fun e => e.best_fitness))) ∧
    (∀ (env : Alg.Env) (ps : List Alg.Particle),
        List.Chain' (fun a b => Fit.le b a)
          ((Alg.optimize env ps).1.map (fun e => e.best_fitness))) := by
  constructor
  · intro env ps evs pos h
    obtain ⟨st1, r1, r2, h1, h2, rfl, rfl⟩ := Pso.optimize_spec h
    obtain ⟨hch, hlast, -⟩ := Pso.optimizeLoop_spec env env.max_iterations 0 st1 r1 r2 h2
    have hfull : List.Chain' (fun a b => Fit.le b a)
        ((st1.global_best_fitness :: r1.map (fun e => e.best_fitness)) ++
          [r2.global_best_fitness]) := by
      refine List.chain'_append.2 ⟨hch, List.chain'_singleton _, ?_⟩
      intro x hx y hy
      rw [hlast] at hx
      simp only [Option.mem_def, Option.some.injEq] at hx
      simp only [List.head?_cons, Option.mem_def, Option.some.injEq] at hy
      subst hx
      subst hy
      exact Fit.le_refl _
    rw [List.cons_append] at hfull
    have htail := hfull.tail
    simpa using htail
  · intro env ps
    exact Alg.optimize_chain env ps

/-- Claim C1 witness: a concrete f64 run (one particle, zero iterations)
publishes exactly the final status, and its best-fitness sequence is a
`≥`-chain. -/
theorem claim_C1_witness :
    Pso.optimize wEnvF64 [wParticle] = some ([wFinal], [1/2, 1/2]) ∧
    List.Chain' (fun a b => Fit.le b a) ([wFinal].map (fun e => e.best_fitness)) :=
  ⟨by with_unfolding_all decide,
   claim_C1.1 wEnvF64 [wParticle] [wFinal] [1/2, 1/2] (by with_unfolding_all decide)⟩

/-- Claim C2: room pre-allocation depends only on the course list and the room
count, never on the position vector: the k-th (0-based) sorted-deduplicated
group key receives room `(k % sum_ruangan) + 1`, a room in
`1..=sum_ruangan`, and any two position vectors decoded against the same
courses and room count give sections of the same group identical rooms. -/
theorem claim_C2 :
    (∀ (courses : List CourseRequest) (sum_ruangan : ℕ)
        (l : List ((ℕ × ℕ × ℕ) × ℕ)) (k : ℕ) (g : ℕ × ℕ × ℕ),
        Pso.allocRooms sum_ruangan (Pso.sortedGroups courses) 1 = some l →
        (Pso.sortedGroups courses).get? k = some g →
        l.get? k = some (g, k % sum_ruangan + 1) ∧
        1 ≤ k % sum_ruangan + 1 ∧ k % sum_ruangan + 1 ≤ sum_ruangan) ∧
    (∀ (p₁ p₂ : List ℚ) (courses : List CourseRequest) (sum_ruangan : ℕ)
        (out₁ out₂ : List OptimizedCourse),
        Pso.position_to_schedule p₁ courses sum_ruangan = some out₁ →
        Pso.position_to_schedule p₂ courses sum_ruangan = some out₂ →
        ∀ c₁ ∈ out₁, ∀ c₂ ∈ out₂,
          c₁.prodi = c₂.prodi → c₁.semester = c₂.semester →
          c₁.id_kelas = c₂.id_kelas → c₁.ruangan = c₂.ruangan) := by
  constructor
  · intro courses sum_ruangan l k g hl hg
    have hR : 1 ≤ sum_ruangan := by
      by_contra hR0
      have h0 : sum_ruangan = 0 := by omega
      subst h0
      have hne : Pso.sortedGroups courses ≠ [] := by
        intro hnil
        rw [hnil] at hg
        simp [List.get?] at hg
      rw [Pso.allocRooms_of_zero hne 1] at hl
      exact absurd hl (by simp)
    have := Pso.allocRooms_get hR (Pso.sortedGroups courses) 1 (le_refl 1) hR k g l hl hg
    have hklt : k % sum_ruangan < sum_ruangan := Nat.mod_lt k (by omega)
    simp only [Nat.sub_self, Nat.zero_add] at this
    exact ⟨this, by omega, by omega⟩
  · intro p₁ p₂ courses sum_ruangan out₁ out₂ h₁ h₂ c₁ hc₁ c₂ hc₂ hp hs hk
    obtain ⟨alloc, halloc⟩ := Pso.decode_some_alloc h₁
    have m₁ := (Pso.position_to_schedule_mem halloc h₁ c₁ hc₁).2.2.2.2
    have m₂ := (Pso.position_to_schedule_mem halloc h₂ c₂ hc₂).2.2.2.2
    rw [m₁, m₂, hp, hs, hk]

/-- Claim C2 witness: concretely, the single group of `[wCourse]` with one
room receives room 1, and decoding two different positions gives the section
the identical room. -/
theorem claim_C2_witness :
    (([((1, 1, 1), 1)] : List ((ℕ × ℕ × ℕ) × ℕ)).get? 0 =
        some ((1, 1, 1), 0 % 1 + 1) ∧ 1 ≤ 0 % 1 + 1 ∧ 0 % 1 + 1 ≤ 1) ∧
    (⟨1, 1, 1, 1, 1, 1, 480, 600, 1, 1, 3, 1⟩ : OptimizedCourse).ruangan =
      (⟨1, 1, 1, 1, 1, 1, 480, 600, 1, 1, 3, 1⟩ : OptimizedCourse).ruangan :=
  ⟨claim_C2.1 [wCourse] 1 [((1, 1, 1), 1)] 0 (1, 1, 1) (by with_unfolding_all decide)
     (by with_unfolding_all decide),
   claim_C2.2 [0, 0] [1, 0] [wCourse] 1 wSchedule wSchedule
     (by with_unfolding_all decide) (by with_unfolding_all decide)
     ⟨1, 1, 1, 1, 1, 1, 480, 600, 1, 1, 3, 1⟩ (by decide)
     ⟨1, 1, 1, 1, 1, 1, 480, 600, 1, 1, 3, 1⟩ (by decide) rfl rfl rfl⟩

/-- Claim C3 counterexample: the claim asserts the 4-section daily capacity 3
for `position_to_schedule`, but the cited f64 decoder
(`src/pso/optimizer.rs`) uses capacity 6 for every group size: on the exact
scenario of the claim it places two of the four sections on day 1 (days come
out 1, 1, 2, 2), so the sections do not land on distinct days. -/
theorem claim_C3_counterexample :
    (Pso.position_to_schedule c3Position c3Courses 1).map
      (fun l => l.countP (fun c => c.hari == 1)) = some 2 := by
  with_unfolding_all decide

/-- Claim C3 (amended): the f32 `position_to_schedule`
(`src/algorithms/optimizer.rs`) applies the 4-section daily capacity of 3 and
places each section on a distinct day among {1, 2, 3, 4} in ascending rank of
its day-order coordinate (0.1 → day 1, 0.3 → day 2, 0.7 → day 3,
0.9 → day 4); the f64 decoder uses capacity 6 for all group sizes and packs
the same scenario onto days 1, 1, 2, 2. -/
theorem claim_C3 :
    (Alg.position_to_schedule c3Position c3Courses).map
      (fun c => (c.id_jadwal, c.hari)) = [(10, 1), (12, 2), (13, 3), (11, 4)] := by
  with_unfolding_all decide

/-- Claim C4 counterexample: the f64 iteration body moves every particle
first, using the global best carried over from the previous iteration, and
only then evaluates and updates bests.  On a concrete one-particle state it
reaches global-best fitness 5, while the order the claim describes (evaluate,
refresh the global best, then move) leaves the global best at 10 — so the f64
loop does not implement the claimed order. -/
theorem claim_C4_counterexample :
    (Pso.iterBody c4Env 0 c4St).map (fun st => st.global_best_fitness) =
      some (.val 5) ∧
    (Pso.iterBodySpecOrder c4Env 0 c4St).map (fun st => st.global_best_fitness) =
      some (.val 10) :=
  ⟨by with_unfolding_all decide, by with_unfolding_all decide⟩

/-- Claim C4 (amended): the f32 optimizer follows the claimed order — in every
iteration each particle is first decoded, evaluated and its personal best
updated, then the global best is refreshed from all personal bests, and only
then is every particle's velocity and position updated using that refreshed
global best.  The f64 optimizer does not (see the counterexample): it moves
every particle with the previous iteration's global best and evaluates the
moved positions. -/
theorem claim_C4 (env : Alg.Env) (iter : ℕ) (st : Alg.Swarm) :
    Alg.iterBody env iter st = Alg.iterBodySpecOrder env iter st := rfl

/-- Claim C5 counterexample: a completed f32 run (one particle, one iteration,
no stop signal, finite fitness) publishes exactly one progress event, and no
published event has `is_finished = true` — the f32 `optimize` never publishes
a finished event on any termination path. -/
theorem claim_C5_counterexample :
    (Alg.optimize c5Env [c5Particle]).1.map (fun e => e.is_finished) = [false] := by
  with_unfolding_all decide

/-- Claim C5 (amended): the f64 optimizer publishes, after loop exit on each
of its termination paths (all iterations completed, or cancelled by the stop
signal; it has no early-stop path), a final event with `is_finished = true`,
and every earlier event of the run has `is_finished = false`; the f32
optimizer publishes no finished event at all. -/
theorem claim_C5 : ∀ (env : Pso.Env) (ps : List Pso.Particle)
    (evs : List Pso.OptimizationStatus) (pos : List ℚ),
    Pso.optimize env ps = some (evs, pos) →
    ∃ fin, evs.getLast? = some fin ∧ fin.is_finished = true ∧
      ∀ e ∈ evs.dropLast, e.is_finished = false := by
  intro env ps evs pos h
  obtain ⟨st1, r1, r2, h1, h2, rfl, rfl⟩ := Pso.optimize_spec h
  obtain ⟨-, -, hnf⟩ := Pso.optimizeLoop_spec env env.max_iterations 0 st1 r1 r2 h2
  refine ⟨Pso.finalStatus env r2, List.getLast?_concat _, rfl, ?_⟩
  rw [List.dropLast_concat]
  exact hnf

/-- Claim C5 witness: the concrete f64 run publishes exactly the final
finished status. -/
theorem claim_C5_witness :
    Pso.optimize wEnvF64 [wParticle] = some ([wFinal], [1/2, 1/2]) ∧
    ∃ fin, ([wFinal] : List Pso.OptimizationStatus).getLast? = some fin ∧
      fin.is_finished = true ∧
      ∀ e ∈ ([wFinal] : List Pso.OptimizationStatus).dropLast, e.is_finished = false :=
  ⟨by with_unfolding_all decide,
   claim_C5 wEnvF64 [wParticle] [wFinal] [1/2, 1/2] (by with_unfolding_all decide)⟩

/-- Claim C6 counterexample: with a configured room count of zero and a
non-empty course list, the f64 `position_to_schedule` does not return
normally: the room-allocation loop evaluates `current_room % sum_ruangan`
with divisor zero, which panics in Rust (modelled as `none`). -/
theorem claim_C6_counterexample :
    Pso.position_to_schedule [0, 0] [wCourse] 0 = none := by
  with_unfolding_all decide

/-- Claim C6 (amended): `position_to_schedule` returns normally on every
input with a room count of at least 1 (and totally ordered, non-NaN
coordinates, the only case `ℚ` models); `optimize` returns normally whenever
additionally the velocity and position clamps are non-negative (the spec's
documented precondition that all clamps are positive).  Outside these
preconditions the code aborts: with a room count of zero and a non-empty
course list it panics on a remainder-by-zero (see the counterexample), and
with a negative clamp `f64::clamp` is called with an inverted range and
panics in every build profile, as the third conjunct exhibits on a concrete
one-iteration run. -/
theorem claim_C6 :
    (∀ (position : List ℚ) (courses : List CourseRequest) (sum_ruangan : ℕ),
      1 ≤ sum_ruangan →
      (Pso.position_to_schedule position courses sum_ruangan).isSome) ∧
    (∀ (env : Pso.Env) (ps : List Pso.Particle), 1 ≤ env.sum_ruangan →
      0 ≤ env.velocity_clamp → 0 ≤ env.position_clamp →
      (Pso.optimize env ps).isSome) ∧
    Pso.optimize cClampEnv [wParticle] = none :=
  ⟨fun position courses _ hR => Pso.position_to_schedule_isSome hR position courses,
   fun _ ps hR hv hp => Pso.optimize_isSome hR hv hp ps,
   by with_unfolding_all decide⟩

/-- Claim C6 witness: with one room and the unit clamps, both the decoder and
a full run return normally on the concrete input. -/
theorem claim_C6_witness :
    (Pso.position_to_schedule [0, 0] [wCourse] 1).isSome ∧
    (Pso.optimize wEnvF64 [wParticle]).isSome :=
  ⟨claim_C6.1 [0, 0] [wCourse] 1 (by decide),
   claim_C6.2.1 wEnvF64 [wParticle] (by decide) (by with_unfolding_all decide)
     (by with_unfolding_all decide)⟩

/-- Claim C7 counterexample: calling the f32 `optimize` with
`max_iterations = 0` does not yield the initial swarm's best: the run returns
the reset zero position with fitness `+∞` and publishes no event at all, even
though evaluating the initial particle's position would give the finite
fitness 5 — no particle is decoded or evaluated during initialization. -/
theorem claim_C7_counterexample :
    Alg.optimize c7Env [c5Particle] = ([], [.inf], [0, 0], .inf) ∧
    Alg.evaluate_position c5Particle.position c7Env.courses c7Env.calcFit = .val 5 :=
  ⟨by with_unfolding_all decide, by with_unfolding_all decide⟩

/-- Claim C7 (amended): for the f64 optimizer with `max_iterations = 0` (and a
positive room count), every particle is still decoded and evaluated exactly
once during initialization, the returned position carries the best of those
initial evaluations (the global best is a lower bound of every initial
evaluation and, when finite, equals the evaluation of some particle whose
position is returned), and the run still terminates normally publishing
exactly its final finished event.  (In Rust the final event's `usize`
iteration index `max_iterations - 1` underflows when `max_iterations = 0`:
release builds wrap it to `2^64 - 1`, debug builds panic.)  The f32 optimizer
does not satisfy the claim (see the counterexample). -/
theorem claim_C7 : ∀ (env : Pso.Env) (ps : List Pso.Particle),
    env.max_iterations = 0 → 1 ≤ env.sum_ruangan →
    ∃ st1, Pso.init_swarm env ps (Pso.initState env) = some st1 ∧
      Pso.optimize env ps =
        some ([Pso.finalStatus env st1], st1.global_best_position) ∧
      (Pso.finalStatus env st1).is_finished = true ∧
      (∀ p ∈ ps, ∀ s,
        Pso.position_to_schedule p.position env.courses env.sum_ruangan = some s →
        Fit.le st1.global_best_fitness (env.calcFit s).1) ∧
      (st1.global_best_fitness = .inf ∨
        ∃ p ∈ ps, ∃ s,
          Pso.position_to_schedule p.position env.courses env.sum_ruangan = some s ∧
          st1.global_best_fitness = (env.calcFit s).1 ∧
          st1.global_best_position = p.position) := by
  intro env ps hmax hR
  obtain ⟨st1, h1⟩ := Option.isSome_iff_exists.1
    (Pso.init_swarm_isSome hR ps (Pso.initState env))
  obtain ⟨hle, hall, hd⟩ := Pso.init_swarm_spec env ps (Pso.initState env) st1 h1
  refine ⟨st1, h1, ?_, rfl, hall, ?_⟩
  · unfold Pso.optimize
    rw [h1]
    simp only [Option.bind_eq_bind, Option.some_bind]
    rw [hmax]
    simp [Pso.optimizeLoop]
  · rcases hd with ⟨hf, hp⟩ | h
    · left
      rw [hf]
      rfl
    · right
      exact h

/-- Claim C7 witness: the concrete f64 run with zero iterations. -/
theorem claim_C7_witness :
    ∃ st1, Pso.init_swarm wEnvF64 [wParticle] (Pso.initState wEnvF64) = some st1 ∧
      Pso.optimize wEnvF64 [wParticle] =
        some ([Pso.finalStatus wEnvF64 st1], st1.global_best_position) ∧
      (Pso.finalStatus wEnvF64 st1).is_finished = true ∧
      (∀ p ∈ [wParticle], ∀ s,
        Pso.position_to_schedule p.position wEnvF64.courses wEnvF64.sum_ruangan =
          some s →
        Fit.le st1.global_best_fitness (wEnvF64.calcFit s).1) ∧
      (st1.global_best_fitness = .inf ∨
        ∃ p ∈ [wParticle], ∃ s,
          Pso.position_to_schedule p.position wEnvF64.courses wEnvF64.sum_ruangan =
            some s ∧
          st1.global_best_fitness = (wEnvF64.calcFit s).1 ∧
          st1.global_best_position = p.position) :=
  claim_C7 wEnvF64 [wParticle] rfl (by decide)

/-- Claim C8: every scheduled section output by `position_to_schedule` (both
engines) is well-formed — day in `1..=5`, `jam_akhir = jam_mulai + sks × 40`
(so never before `jam_mulai`), `jam_mulai` at least its session window's start
(480 for category 1 and unrecognized categories, 1080 for category 2), and
`jam_akhir` at most the window's end (720 resp. 1320) unless the slot cursor
was wrapped back to the window start. -/
theorem claim_C8 :
    (∀ (position : List ℚ) (courses : List CourseRequest) (sum_ruangan : ℕ)
        (out : List OptimizedCourse),
        Pso.position_to_schedule position courses sum_ruangan = some out →
        ∀ c ∈ out, wellFormedSection c) ∧
    (∀ (position : List ℚ) (courses : List CourseRequest),
        ∀ c ∈ Alg.position_to_schedule position courses, wellFormedSection c) := by
  constructor
  · intro position courses sum_ruangan out hout c hc
    obtain ⟨alloc, halloc⟩ := Pso.decode_some_alloc hout
    obtain ⟨⟨h1, h2⟩, h3, h4, h5, -⟩ := Pso.position_to_schedule_mem halloc hout c hc
    exact ⟨h1, h2, h3, h4, h5⟩
  · intro position courses c hc
    obtain ⟨⟨h1, h2⟩, h3, h4, h5⟩ := Alg.position_to_schedule_mem32 position courses c hc
    exact ⟨h1, h2, h3, h4, h5⟩

/-- Claim C8 witness: the concretely decoded section (day 1, 480–600, 3 sks)
is well-formed. -/
theorem claim_C8_witness :
    wellFormedSection ⟨1, 1, 1, 1, 1, 1, 480, 600, 1, 1, 3, 1⟩ :=
  claim_C8.1 [0, 0] [wCourse] 1 wSchedule (by with_unfolding_all decide)
    ⟨1, 1, 1, 1, 1, 1, 480, 600, 1, 1, 3, 1⟩ (by decide)

/-- Claim C9 counterexample: the f32 `Particle::new`
(`src/algorithms/optimizer.rs`) zero-initializes the personal-best position
instead of copying the initial position: with dimension 1 and a random draw of
1/2 the initial position is `[1/2]` but `pbest_position` is `[0]`.  (Its
position sampling is also plain uniform, not stratified.) -/
theorem claim_C9_counterexample :
    (Alg.Particle.new 1 cGen).pbest_position ≠ (Alg.Particle.new 1 cGen).position := by
  with_unfolding_all decide

/-- Claim C9 (amended): the f64 `Particle::new` (`src/pso/particle.rs`)
satisfies the claim — the personal-best position equals the initial position
with personal-best fitness `+∞`; the initial position's coordinates are, as a
multiset, one sample from each of the `dimension` sub-intervals
`[i/d, (i+1)/d)` of `[0, 1)`, permuted across coordinate indices by the
shuffle; and every velocity coordinate lies in the symmetric range `[-1, 1)`.
The f32 `Particle::new` does not (see the counterexample). -/
theorem claim_C9 : ∀ (dimension : ℕ) (gen : ℕ → ℚ → ℚ → ℚ)
    (shuffle : List ℚ → List ℚ),
    1 ≤ dimension →
    (∀ n lo hi, lo < hi → lo ≤ gen n lo hi ∧ gen n lo hi < hi) →
    (∀ l, (shuffle l).Perm l) →
    (Pso.Particle.new dimension gen shuffle).pbest_position =
      (Pso.Particle.new dimension gen shuffle).position ∧
    (Pso.Particle.new dimension gen shuffle).pbest_fitness = .inf ∧
    (Pso.Particle.new dimension gen shuffle).position.Perm
      ((List.range dimension).map fun i =>
        gen i (i * (1 / (dimension : ℚ))) ((i + 1) * (1 / (dimension : ℚ)))) ∧
    (∀ i < dimension,
      (i : ℚ) * (1 / (dimension : ℚ)) ≤
        gen i (i * (1 / (dimension : ℚ))) ((i + 1) * (1 / (dimension : ℚ))) ∧
      gen i (i * (1 / (dimension : ℚ))) ((i + 1) * (1 / (dimension : ℚ))) <
        (i + 1) * (1 / (dimension : ℚ))) ∧
    (∀ v ∈ (Pso.Particle.new dimension gen shuffle).velocity,
      -1 ≤ v ∧ v < 1) := by
  intro d gen shuffle hd hgen hshuf
  have hdpos : (0 : ℚ) < (d : ℚ) := by exact_mod_cast hd
  have hstep : (0 : ℚ) < 1 / (d : ℚ) := by positivity
  have hcell : ∀ i : ℕ, (i : ℚ) * (1 / (d : ℚ)) < ((i : ℚ) + 1) * (1 / (d : ℚ)) :=
    fun i => mul_lt_mul_of_pos_right (lt_add_one _) hstep
  refine ⟨rfl, rfl, ?_, ?_, ?_⟩
  · exact hshuf _
  · intro i _
    exact hgen i _ _ (hcell i)
  · intro v hv
    unfold Pso.Particle.new at hv
    dsimp only at hv
    obtain ⟨i, -, rfl⟩ := List.mem_map.1 hv
    exact hgen (d + i) (-1) 1 (by norm_num)

/-- Claim C9 witness: dimension 2, with the lower-bound sampler and the
identity shuffle. -/
theorem claim_C9_witness :
    (Pso.Particle.new 2 wGen wShuffle).pbest_position =
      (Pso.Particle.new 2 wGen wShuffle).position ∧
    (Pso.Particle.new 2 wGen wShuffle).pbest_fitness = .inf ∧
    (Pso.Particle.new 2 wGen wShuffle).position.Perm
      ((List.range 2).map fun i =>
        wGen i (i * (1 / (2 : ℚ))) ((i + 1) * (1 / (2 : ℚ)))) ∧
    (∀ i : ℕ, i < 2 →
      (i : ℚ) * (1 / (2 : ℚ)) ≤ wGen i (i * (1 / (2 : ℚ))) ((i + 1) * (1 / (2 : ℚ))) ∧
      wGen i (i * (1 / (2 : ℚ))) ((i + 1) * (1 / (2 : ℚ))) < (i + 1) * (1 / (2 : ℚ))) ∧
    (∀ v ∈ (Pso.Particle.new 2 wGen wShuffle).velocity, -1 ≤ v ∧ v < 1) :=
  claim_C9 2 wGen wShuffle (by decide)
    (fun _ lo _ h => ⟨le_refl lo, h⟩)
    (fun l => List.Perm.refl l)

/-- Claim C10: the terminal event of an f64 run (the one with
`is_finished = true`, always the last event) carries the default empty
`ConflictInfo` with `total_conflicts = 0`, whatever the fitness oracle
reports for the best schedule; the run's true conflict report is obtained by
a separate evaluation (`evaluate_best_position`) of the returned best
position. -/
theorem claim_C10 : ∀ (env : Pso.Env) (ps : List Pso.Particle)
    (evs : List Pso.OptimizationStatus) (pos : List ℚ),
    Pso.optimize env ps = some (evs, pos) →
    ∃ fin, evs.getLast? = some fin ∧ fin.is_finished = true ∧
      fin.conflicts = ConflictInfo.default ∧ fin.conflicts.total_conflicts = 0 ∧
      ∀ s, Pso.position_to_schedule pos env.courses env.sum_ruangan = some s →
        Pso.evaluate_best_position env pos = some (env.calcFit s) := by
  intro env ps evs pos h
  obtain ⟨st1, r1, r2, h1, h2, rfl, rfl⟩ := Pso.optimize_spec h
  refine ⟨Pso.finalStatus env r2, List.getLast?_concat _, rfl, rfl, rfl, ?_⟩
  intro s hs
  unfold Pso.evaluate_best_position
  rw [hs]
  rfl

/-- Claim C10 witness: the concrete run's fitness oracle reports 7 conflicts
for the best schedule, yet the finished event carries zero conflicts. -/
theorem claim_C10_witness :
    (wEnvF64.calcFit wSchedule).2.total_conflicts = 7 ∧
    ∃ fin, ([wFinal] : List Pso.OptimizationStatus).getLast? = some fin ∧
      fin.is_finished = true ∧
      fin.conflicts = ConflictInfo.default ∧ fin.conflicts.total_conflicts = 0 ∧
      ∀ s, Pso.position_to_schedule [1/2, 1/2] wEnvF64.courses wEnvF64.sum_ruangan =
          some s →
        Pso.evaluate_best_position wEnvF64 [1/2, 1/2] = some (wEnvF64.calcFit s) :=
  ⟨rfl, claim_C10 wEnvF64 [wParticle] [wFinal] [1/2, 1/2] (by with_unfolding_all decide)⟩

end ScheduleApp
